import Mathlib

/-!
Verification of the gptui repository: shallow embeddings of the chunk
parser and stream engine (src/client.rs), the message code-block
extraction (src/message.rs), the thread store (src/db.rs), the session
thread ordering (src/session.rs) and the TUI copy mode (src/tui.rs),
with theorems settling the specification claims.
-/

/-! ## TUI copy mode (src/tui.rs) -/

namespace Tui

/-- crossterm key codes as matched by src/tui.rs. -/
inductive KeyCode where
  | esc : KeyCode
  | enter : KeyCode
  | char : Char → KeyCode
  | up : KeyCode
  | down : KeyCode
  | backspace : KeyCode
  | otherKey : KeyCode
deriving DecidableEq, Repr

/-- A crossterm key press event: code plus modifier flags. -/
structure KeyEv where
  code : KeyCode
  ctrl : Bool
  alt : Bool
  shift : Bool
deriving DecidableEq, Repr

/-- `matches!(key_modifiers, KeyModifiers::CONTROL)`: exactly the control
modifier is held. -/
def KeyEv.modCtrl (k : KeyEv) : Prop := k.ctrl = true ∧ k.alt = false ∧ k.shift = false

/-- `matches!(key_modifiers, KeyModifiers::ALT)`. -/
def KeyEv.modAlt (k : KeyEv) : Prop := k.alt = true ∧ k.ctrl = false ∧ k.shift = false

/-- `matches!(key_modifiers, KeyModifiers::SHIFT)`. -/
def KeyEv.modShift (k : KeyEv) : Prop := k.shift = true ∧ k.ctrl = false ∧ k.alt = false

instance : DecidablePred KeyEv.modCtrl := fun k => by unfold KeyEv.modCtrl; infer_instance
instance : DecidablePred KeyEv.modAlt := fun k => by unfold KeyEv.modAlt; infer_instance
instance : DecidablePred KeyEv.modShift := fun k => by unfold KeyEv.modShift; infer_instance

/-- Terminal events handled by `update_awaiting_send`: key presses and
mouse scroll events. -/
inductive TermEvent where
  | key : KeyEv → TermEvent
  | mouseScrollUp : TermEvent
  | mouseScrollDown : TermEvent
  | otherEvent : TermEvent
deriving DecidableEq, Repr

/-- The App state of src/tui.rs, restricted to the pure fields the update
functions read and write.  The active thread's code blocks are represented
by the list of their content strings (`thread().code_blocks()` in the
source; a block's `content` is what copy mode copies).  The terminal,
session and channel handles are external collaborators; a receiver being
present is a Bool, and clipboard writes are recorded in `clipboard`. -/
structure App where
  should_quit : Bool
  reply_rx : Bool
  user_message : String
  chat_scroll : Nat
  bottom_text : Option String
  copy_select_buf : String
  copy_mode : Bool
  selected_block_index : Option Nat
  should_show_editor : Bool
  threadBlocks : List String
  clipboard : List String
deriving DecidableEq, Repr

/-- `app_defaults!` in src/tui.rs lines 63-100: the initial App state. -/
def App.defaults (blocks : List String) : App :=
  { should_quit := false
    reply_rx := false
    user_message := ""
    chat_scroll := 0
    bottom_text := none
    copy_select_buf := ""
    copy_mode := false
    selected_block_index := none
    should_show_editor := false
    threadBlocks := blocks
    clipboard := [] }

/-- `string_preview` as used for the copied alert (session module
collaborator): keeps the string if it fits, else truncates with an
ellipsis. -/
def string_preview (s : String) (width : Nat) : String :=
  if s.length ≤ width then s else String.mk (s.toList.take (width - 3)) ++ "..."

/-- `App::exit_copy_mode` (src/tui.rs lines 151-155): clear the copy
buffer and unset the copy-mode flag. -/
def App.exit_copy_mode (a : App) : App :=
  { a with copy_select_buf := "", copy_mode := false }

/-- usize::MAX on the 64-bit targets this program builds for. -/
def USIZE_MAX : Nat := 2 ^ 64 - 1

/-- `copy_select_buf.parse::<usize>()`: succeeds on a non-empty all-digit
string whose value fits in usize (the buffer receives only ascii digits). -/
def parseUsize (s : String) : Option Nat :=
  let cs := s.toList
  if cs.isEmpty ∨ ¬ cs.all Char.isDigit then none
  else
    let v := cs.foldl (fun a c => a * 10 + (c.toNat - 48)) 0
    if v ≤ USIZE_MAX then some v else none

/-- `App::update_copy_mode` (src/tui.rs lines 157-210); matches on the
event's key code only, like the source. -/
def App.update_copy_mode (a : App) (k : KeyEv) : App :=
  match k.code with
  | .esc => a.exit_copy_mode
  | .enter =>
    match a.selected_block_index with
    | none => a
    | some index =>
      match a.threadBlocks.get? (index - 1) with
      | none =>
        { a with bottom_text := some ("No selection for '" ++ toString index ++ "'!") }.exit_copy_mode
      | some blockContent =>
        { a with clipboard := a.clipboard ++ [blockContent],
                 bottom_text := some ("Copied '" ++ string_preview blockContent 30 ++ "'") }.exit_copy_mode
  | .char c =>
    if c.isDigit then
      let buf := a.copy_select_buf.push c
      let a' := { a with copy_select_buf := buf }
      match parseUsize buf with
      | some n =>
        if (a'.threadBlocks.get? (n - 1)).isSome then
          { a' with selected_block_index := some n, bottom_text := none }
        else
          { a' with bottom_text := some ("No selection for '" ++ toString n ++ "'!"),
                    copy_mode := false, copy_select_buf := "" }
      | none => { a' with copy_mode := false, copy_select_buf := "" }
    else a
  | _ => a

/-- SCROLL_STEP in src/tui.rs. -/
def SCROLL_STEP : Nat := 1

/-- `App::scroll_up` (saturating). -/
def App.scroll_up (a : App) (step : Nat) : App :=
  { a with chat_scroll := a.chat_scroll - step }

/-- `App::scroll_down`; the clamp against `max_scroll` is an external
measurement of rendered text and is abstracted away (it does not touch
the copy-mode fields). -/
def App.scroll_down (a : App) (step : Nat) : App :=
  { a with chat_scroll := a.chat_scroll + step }

/-- `App::send_message` (src/tui.rs lines 223-246) restricted to the
modelled fields: opens a reply stream and clears the input buffer (the
thread append and title/summary fetches touch collaborators outside this
model). -/
def App.send_message (a : App) : App :=
  { a with reply_rx := true, user_message := "" }

/-- `App::update_awaiting_send` (src/tui.rs lines 248-335): one terminal
event handled in the normal state, with the source's match-arm order. -/
def App.update_awaiting_send (a : App) (e : TermEvent) : App :=
  match e with
  | .key k =>
    if k.code = .char 'c' ∧ k.modCtrl then { a with should_quit := true }
    else if k.code = .up then a.scroll_up SCROLL_STEP
    else if k.code = .down then a.scroll_down SCROLL_STEP
    else if a.copy_mode then a.update_copy_mode k
    else if k.code = .char 'w' ∧ k.modCtrl then { a with copy_mode := true }
    else if k.code = .char 'e' ∧ k.modCtrl then { a with should_show_editor := true }
    else if k.code = .enter ∧ k.modAlt then
      if a.user_message ≠ "" then a.send_message else a
    else if k.code = .enter then { a with user_message := a.user_message.push '\n' }
    else
      match k.code with
      | .char c =>
        if k.modShift then { a with user_message := a.user_message.push c.toUpper }
        else { a with user_message := a.user_message.push c }
      | .backspace => { a with user_message := a.user_message.dropRight 1 }
      | _ => a
  | .mouseScrollUp => a.scroll_up (SCROLL_STEP * 2)
  | .mouseScrollDown => a.scroll_down (SCROLL_STEP * 2)
  | .otherEvent => a

/-- One value taken from the reply channel in `App::update_recieving`
(src/tui.rs lines 341-358): a token feeds the thread (outside this
model), `none` commits and clears the receiver. -/
def App.update_recieving (a : App) (v : Option String) : App :=
  match v with
  | some _ => a
  | none => { a with reply_rx := false }

/-- Events driving the App state machine across ticks. -/
inductive AppEvent where
  | term : TermEvent → AppEvent
  | recv : Option String → AppEvent
deriving DecidableEq, Repr

/-- One tick of `App::update` (src/tui.rs lines 360-406) at the modelled
granularity: while a reply receiver is present, keyboard input is read
and discarded and the receiver is drained; otherwise terminal events go
to `update_awaiting_send`. -/
def App.step (a : App) (e : AppEvent) : App :=
  match e with
  | .term ev => if a.reply_rx then a else a.update_awaiting_send ev
  | .recv v => if a.reply_rx then a.update_recieving v else a

/-- Reachable App states: the defaults plus anything obtainable through
update steps. -/
inductive App.Reachable : App → Prop where
  | init (blocks : List String) : App.Reachable (App.defaults blocks)
  | step {a : App} (e : AppEvent) : App.Reachable a → App.Reachable (a.step e)

/-- The alert string shown at the bottom of the input block
(src/tui.rs lines 492-496): the explicit bottom text if set, else the
currently selected copy index rendered as a number. -/
def App.alertMsg (a : App) : Option String :=
  match a.bottom_text with
  | some t => some t
  | none => a.selected_block_index.map toString

end Tui

/-! ## Message and code-block extraction (src/message.rs) -/

namespace Msg

/-- `Role` (src/message.rs lines 48-55). -/
inductive Role where
  | user : Role
  | system : Role
  | assistant : Role
deriving DecidableEq, Repr

/-- `Role::to_num` (src/message.rs lines 84-90). -/
def Role.to_num : Role → Nat
  | .system => 1
  | .user => 2
  | .assistant => 3

/-- `Role::from_num` (src/message.rs lines 92-99); `none` is the
"Role value must be 1, 2, or 3" error. -/
def Role.from_num : Nat → Option Role
  | 1 => some .system
  | 2 => some .user
  | 3 => some .assistant
  | _ => none

/-- `BLOCK_MARKER` (src/message.rs line 117). -/
def BLOCK_MARKER : String := "```__<BLOCK>__```"

/-- The marker as a character list, for the extraction scan. -/
def markerChars : List Char := BLOCK_MARKER.toList

/-- A word character for the regex class `\w` (ASCII fragment of the
Unicode word class; the marker and fences are ASCII, and nothing in the
development depends on the exact class). -/
def isWordChar (c : Char) : Bool := c.isAlphanum || c == '_'

/-- Find the first occurrence of the closing `\n¬``¬``¬`` ` fence: returns
the content before it and the text after it. -/
def findClose : List Char → Option (List Char × List Char)
  | [] => none
  | c :: ct =>
    if c = '\n' ∧ ['`', '`', '`'].isPrefixOf ct then
      some ([], ct.drop 3)
    else
      match findClose ct with
      | some (pre, rest) => some (c :: pre, rest)
      | none => none

/-- Try to match the code-block regex
`¬``¬``¬``(?<header>\w+)?\n(?<content>.*?)\n¬``¬``¬`` ` at the head of the
text: an opening fence, an optional greedy word-character header that
must be followed by a newline, then the lazily-shortest content up to a
closing fence. -/
def matchAt (cs : List Char) : Option (Option (List Char) × List Char × List Char) :=
  match cs with
  | '`' :: '`' :: '`' :: rest =>
    let hdr := rest.takeWhile isWordChar
    match rest.drop hdr.length with
    | '\n' :: body =>
      match findClose body with
      | some (content, after) =>
        some (if hdr.isEmpty then none else some hdr, content, after)
      | none => none
    | _ => none
  | _ => none

/-- Leftmost match of the code-block regex: the text before the match,
the captured header and content, and the text after the match. -/
def findMatch : List Char → Option (List Char × Option (List Char) × List Char × List Char)
  | [] => none
  | c :: ct =>
    match matchAt (c :: ct) with
    | some (h, content, rest) => some ([], h, content, rest)
    | none =>
      match findMatch ct with
      | some (pre, h, co, rest) => some (c :: pre, h, co, rest)
      | none => none

/-- `CodeBlock` (src/message.rs lines 253-259) restricted to language and
content; the highlighted line caches are pure functions of these two
fields and the fixed theme (spec §3) and carry no extra state. -/
structure CodeBlock where
  language : Option String
  content : String
deriving DecidableEq, Repr

/-- The `replace_all` loop of `Message::update_blocks` (src/message.rs
lines 211-238): repeatedly take the leftmost regex match, record a
`CodeBlock` from its captures, and splice `BLOCK_MARKER` in place of the
whole match.  `fuel` bounds the number of matches; each match consumes at
least one character, so any fuel at least the text length is exact. -/
def replaceLoop : Nat → List Char → List CodeBlock × List Char
  | 0, cs => ([], cs)
  | fuel + 1, cs =>
    match findMatch cs with
    | none => ([], cs)
    | some (pre, h, content, rest) =>
      let (blocks, out) := replaceLoop fuel rest
      (⟨h.map (fun l => String.mk l), String.mk content⟩ :: blocks,
        pre ++ markerChars ++ out)

/-- Extraction of code blocks and non-code content from a raw content
string. -/
def extractBlocks (s : String) : List CodeBlock × String :=
  let cs := s.toList
  let (bs, out) := replaceLoop cs.length cs
  (bs, String.mk out)

/-- `Message` (src/message.rs lines 102-115).  Timestamps are UTC instants
at the stored precision, as integer milliseconds since the epoch.  The
`token_count` attribute belongs to the spec's message model (§3) and is
the `tokens` column written and read by src/db.rs; src/message.rs's
constructors leave it unset. -/
structure Message where
  role : Role
  content : String
  timestampMillis : Int
  token_count : Option Nat
  code_blocks : List CodeBlock
  non_code_content : String
deriving DecidableEq, Repr

/-- `Message::update_blocks` (src/message.rs lines 211-238). -/
def Message.update_blocks (m : Message) : Message :=
  let (bs, nc) := extractBlocks m.content
  { m with code_blocks := bs, non_code_content := nc }

/-- `Message::new` (src/message.rs lines 127-138): build from role,
content and timestamp, then derive the block fields. -/
def Message.new (role : Role) (content : String) (timestampMillis : Int) : Message :=
  Message.update_blocks
    { role := role, content := content, timestampMillis := timestampMillis,
      token_count := none, code_blocks := [], non_code_content := "" }

/-- `Message::new_user` (src/message.rs lines 140-144); `Utc::now()` is an
input here. -/
def Message.new_user (text : String) (now : Int) : Message :=
  Message.new .user text now

/-- `Message::new_asst` (src/message.rs lines 146-150). -/
def Message.new_asst (text : String) (now : Int) : Message :=
  Message.new .assistant text now

/-- `Message::update` (src/message.rs lines 152-156): append text and
re-derive the block fields. -/
def Message.update (m : Message) (text : String) : Message :=
  Message.update_blocks { m with content := m.content ++ text }

/-- `Message::timestamp_epoch` (src/message.rs lines 168-173): seconds
plus subsecond milliseconds over 1000, as an exact rational (the f64
arithmetic is exact to well beyond this precision at epoch magnitudes). -/
def Message.timestamp_epoch (m : Message) : ℚ :=
  let secs : Int := m.timestampMillis.fdiv 1000
  let subsec : Int := m.timestampMillis.fmod 1000
  (secs : ℚ) + (subsec : ℚ) / 1000

/-- `Message::new_from_db` (src/message.rs lines 158-166): reconstruct the
timestamp from the stored epoch value — floor to whole seconds, then the
fractional part times 1 000 000, floored, is passed to
`DateTime::from_timestamp` as its nanoseconds argument — and build the
message.  The `tokens` column read by the src/db.rs call site is kept in
`token_count`. -/
def Message.new_from_db (role : Role) (content : String) (epoch : ℚ)
    (tokens : Option Nat) : Message :=
  let secs : Int := ⌊epoch⌋
  let fr : ℚ := epoch - (secs : ℚ)
  let nanos : Nat := (⌊fr * 1000000⌋).toNat
  let millis : Int := secs * 1000 + (nanos / 1000000 : Nat)
  { Message.new role content millis with token_count := tokens }

/-- `timestamp_millis` of a message. -/
def Message.timestamp_millis (m : Message) : Int := m.timestampMillis

def Message.is_user (m : Message) : Bool := m.role == .user

def Message.is_assistant (m : Message) : Bool := m.role == .assistant

def Message.is_system (m : Message) : Bool := m.role == .system

/-- Substring test on character lists: does `pat` occur anywhere? -/
def hasSub (pat : List Char) : List Char → Bool
  | [] => pat.isEmpty
  | c :: t => pat.isPrefixOf (c :: t) || hasSub pat t

/-- Number of positions at which `pat` occurs (occurrences may overlap;
for the 17-character marker they cannot, see the theorems). -/
def countOcc (pat : List Char) : List Char → Nat
  | [] => if pat.isPrefixOf ([] : List Char) then 1 else 0
  | c :: t => (if pat.isPrefixOf (c :: t) then 1 else 0) + countOcc pat t

end Msg

/-! ## Chunk parser and stream engine (src/client.rs) -/

namespace Client

/-- serde_json error categories reachable from `from_str` on a string:
end of input, syntax error, or a data (shape) error.  `Error::is_eof`
tests the first, `Error::is_syntax` covers the first two in serde, but
`try_parse_chunks` tests `is_eof` before `is_syntax`, so the split below
matches the branch it takes. -/
inductive ErrCat where
  | eofErr : ErrCat
  | synErr : ErrCat
  | dataErr : ErrCat
deriving DecidableEq, Repr

/-- JSON values.  A number keeps whether it was a plain integer and its
integer value (the value is only consumed through u64/usize fields, which
serde rejects for non-integers, so fractional digits are not retained). -/
inductive Json where
  | null : Json
  | bool : Bool → Json
  | num : Bool → Int → Json
  | str : String → Json
  | arr : List Json → Json
  | obj : List (String × Json) → Json

/-- JSON whitespace (serde_json: space, tab, newline, carriage return). -/
def isJsonWs (c : Char) : Bool := c = ' ' ∨ c = '\t' ∨ c = '\n' ∨ c = '\r'

def skipWs (cs : List Char) : List Char := cs.dropWhile isJsonWs

/-- Match an expected literal tail (for `null`, `true`, `false`): end of
input is an eof error, a wrong character a syntax error. -/
def expectLit : List Char → List Char → Json → Except ErrCat (Json × List Char)
  | [], cs, v => .ok (v, cs)
  | _ :: _, [], _ => .error .eofErr
  | l :: lt, c :: ct, v => if c = l then expectLit lt ct v else .error .synErr

/-- Value of a hexadecimal digit character, if it is one. -/
def hexVal (c : Char) : Option Nat :=
  if c.isDigit then some (c.toNat - 48)
  else if 'a' ≤ c ∧ c ≤ 'f' then some (c.toNat - 87)
  else if 'A' ≤ c ∧ c ≤ 'F' then some (c.toNat - 55)
  else none

/-- Scan a JSON string body after the opening quote, handling escapes;
unterminated input is an eof error, a bad escape or unescaped control
character a syntax error.  `\u` escapes take four hex digits (surrogate
pairing is not modelled; no input in this development uses `\u`). -/
def parseStrAux : List Char → List Char → Except ErrCat (String × List Char)
  | _acc, [] => .error .eofErr
  | acc, c :: ct =>
    if c = '"' then .ok (String.mk acc.reverse, ct)
    else if c = '\\' then
      match ct with
      | [] => .error .eofErr
      | e :: et =>
        if e = '"' then parseStrAux ('"' :: acc) et
        else if e = '\\' then parseStrAux ('\\' :: acc) et
        else if e = '/' then parseStrAux ('/' :: acc) et
        else if e = 'b' then parseStrAux ('\x08' :: acc) et
        else if e = 'f' then parseStrAux ('\x0c' :: acc) et
        else if e = 'n' then parseStrAux ('\n' :: acc) et
        else if e = 'r' then parseStrAux ('\r' :: acc) et
        else if e = 't' then parseStrAux ('\t' :: acc) et
        else if e = 'u' then
          match et with
          | a :: b :: c2 :: d :: r =>
            match hexVal a, hexVal b, hexVal c2, hexVal d with
            | some va, some vb, some vc, some vd =>
              parseStrAux (Char.ofNat (va * 4096 + vb * 256 + vc * 16 + vd) :: acc) r
            | _, _, _, _ => .error .synErr
          | _ => .error .eofErr
        else .error .synErr
    else if c.toNat < 32 then .error .synErr
    else parseStrAux (c :: acc) ct

/-- Parse a JSON number at the head of the input (serde grammar: optional
minus, an integer part with no leading zeros, optional fraction and
exponent).  Returns (isInteger, value, rest). -/
def parseNum (cs : List Char) : Except ErrCat (Json × List Char) :=
  let (neg, cs1) := match cs with
    | '-' :: t => (true, t)
    | _ => (false, cs)
  match cs1 with
  | [] => .error .eofErr
  | d :: _ =>
    if ¬ d.isDigit then .error .synErr
    else
      let digits := cs1.takeWhile Char.isDigit
      if d = '0' ∧ digits.length > 1 then .error .synErr
      else
        let rest := cs1.drop digits.length
        let value : Int := digits.foldl (fun a c => a * 10 + (c.toNat - 48 : Nat)) (0 : Int)
        let value := if neg then -value else value
        match rest with
        | '.' :: fr =>
          let fdigits := fr.takeWhile Char.isDigit
          if fdigits.isEmpty then
            match fr with
            | [] => .error .eofErr
            | _ => .error .synErr
          else
            let rest2 := fr.drop fdigits.length
            match rest2 with
            | 'e' :: ex | 'E' :: ex =>
              let ex1 := match ex with
                | '+' :: t => t
                | '-' :: t => t
                | _ => ex
              let edigits := ex1.takeWhile Char.isDigit
              if edigits.isEmpty then
                match ex1 with
                | [] => .error .eofErr
                | _ => .error .synErr
              else .ok (.num false value, ex1.drop edigits.length)
            | _ => .ok (.num false value, rest2)
        | 'e' :: ex | 'E' :: ex =>
          let ex1 := match ex with
            | '+' :: t => t
            | '-' :: t => t
            | _ => ex
          let edigits := ex1.takeWhile Char.isDigit
          if edigits.isEmpty then
            match ex1 with
            | [] => .error .eofErr
            | _ => .error .synErr
          else .ok (.num false value, ex1.drop edigits.length)
        | _ => .ok (.num true value, rest)

/-- Recursive-descent state: a value, the elements of an array after at
least one element is required, or the members of an object. -/
inductive PMode where
  | value : PMode
  | elems : List Json → PMode
  | members : List (String × Json) → PMode

/-- The JSON parser: one structurally fuel-recursive function covering
values, array element lists and object member lists, mirroring
serde_json's grammar and error classification (eof vs syntax).  Every
recursive call decreases the fuel; fuel at least `2·|input| + 8` never
runs out. -/
def parseRun : Nat → PMode → List Char → Except ErrCat (Json × List Char)
  | 0, _, _ => .error .eofErr
  | fuel + 1, .value, cs =>
    match cs with
    | [] => .error .eofErr
    | c :: rest =>
      if c = 'n' then expectLit ['u', 'l', 'l'] rest .null
      else if c = 't' then expectLit ['r', 'u', 'e'] rest (.bool true)
      else if c = 'f' then expectLit ['a', 'l', 's', 'e'] rest (.bool false)
      else if c = '"' then
        match parseStrAux [] rest with
        | .ok (s, r) => .ok (.str s, r)
        | .error e => .error e
      else if c = '-' ∨ c.isDigit then parseNum cs
      else if c = '[' then
        match skipWs rest with
        | ']' :: r2 => .ok (.arr [], r2)
        | r => parseRun fuel (.elems []) r
      else if c = '{' then
        match skipWs rest with
        | '}' :: r2 => .ok (.obj [], r2)
        | r => parseRun fuel (.members []) r
      else .error .synErr
  | fuel + 1, .elems acc, cs =>
    match parseRun fuel .value cs with
    | .error e => .error e
    | .ok (v, rest) =>
      match skipWs rest with
      | ',' :: r2 => parseRun fuel (.elems (acc ++ [v])) (skipWs r2)
      | ']' :: r2 => .ok (.arr (acc ++ [v]), r2)
      | [] => .error .eofErr
      | _ => .error .synErr
  | fuel + 1, .members acc, cs =>
    match cs with
    | '"' :: r =>
      match parseStrAux [] r with
      | .error e => .error e
      | .ok (k, rest) =>
        match skipWs rest with
        | ':' :: r2 =>
          match parseRun fuel .value (skipWs r2) with
          | .error e => .error e
          | .ok (v, rest2) =>
            match skipWs rest2 with
            | ',' :: r3 => parseRun fuel (.members (acc ++ [(k, v)])) (skipWs r3)
            | '}' :: r3 => .ok (.obj (acc ++ [(k, v)]), r3)
            | [] => .error .eofErr
            | _ => .error .synErr
        | [] => .error .eofErr
        | _ => .error .synErr
    | [] => .error .eofErr
    | _ => .error .synErr

/-- `serde_json::from_str` front end on characters: skip leading
whitespace, parse one value, require only whitespace after it ("trailing
characters" is a syntax error), empty input is an eof error. -/
def parseJson (cs : List Char) : Except ErrCat Json :=
  match parseRun (2 * cs.length + 8) .value (skipWs cs) with
  | .error e => .error e
  | .ok (j, rest) => if (skipWs rest).isEmpty then .ok j else .error .synErr

/-- `CompletionDelta` (src/client.rs lines 62-65). -/
structure CompletionDelta where
  content : Option String
deriving DecidableEq, Repr

/-- `CompletionChoice` (src/client.rs lines 67-72). -/
structure CompletionChoice where
  delta : CompletionDelta
  finish_reason : Option String
  index : Nat
deriving DecidableEq, Repr

/-- `CompletionChunk` (src/client.rs lines 74-80). -/
structure CompletionChunk where
  id : String
  created : Nat
  choices : List CompletionChoice
deriving DecidableEq, Repr

/-- Field lookup in a decoded JSON object. -/
def getField (fields : List (String × Json)) (k : String) : Option Json :=
  (fields.find? (fun p => p.1 = k)).map (fun p => p.2)

/-- Decode an optional string field the way serde derives it for
`Option<String>`: a missing field or `null` is `none`, a string is
`some`, anything else a data error. -/
def decodeOptString (fields : List (String × Json)) (k : String) :
    Except ErrCat (Option String) :=
  match getField fields k with
  | none => .ok none
  | some .null => .ok none
  | some (.str s) => .ok (some s)
  | some _ => .error .dataErr

/-- Decode a required `String` field. -/
def decodeString (fields : List (String × Json)) (k : String) : Except ErrCat String :=
  match getField fields k with
  | some (.str s) => .ok s
  | _ => .error .dataErr

/-- Decode a required `usize` field: a non-negative integer that fits the
64-bit usize. -/
def decodeUsize (fields : List (String × Json)) (k : String) : Except ErrCat Nat :=
  match getField fields k with
  | some (.num true v) =>
    if 0 ≤ v ∧ v ≤ ((2 : Int) ^ 64 - 1) then .ok v.toNat else .error .dataErr
  | _ => .error .dataErr

/-- serde-derived decode of `CompletionDelta` from a JSON value (unknown
fields ignored, missing `Option` fields default to `None`). -/
def CompletionDelta.fromJson : Json → Except ErrCat CompletionDelta
  | .obj fields => (decodeOptString fields "content").map (fun c => ⟨c⟩)
  | _ => .error .dataErr

/-- serde-derived decode of `CompletionChoice`. -/
def CompletionChoice.fromJson : Json → Except ErrCat CompletionChoice
  | .obj fields =>
    match getField fields "delta" with
    | none => .error .dataErr
    | some dj =>
      match CompletionDelta.fromJson dj with
      | .error e => .error e
      | .ok delta =>
        match decodeOptString fields "finish_reason" with
        | .error e => .error e
        | .ok fr =>
          match decodeUsize fields "index" with
          | .error e => .error e
          | .ok ix => .ok ⟨delta, fr, ix⟩
  | _ => .error .dataErr

/-- serde-derived decode of `CompletionChunk`. -/
def CompletionChunk.fromJson : Json → Except ErrCat CompletionChunk
  | .obj fields =>
    match decodeString fields "id" with
    | .error e => .error e
    | .ok id =>
      match decodeUsize fields "created" with
      | .error e => .error e
      | .ok created =>
        match getField fields "choices" with
        | some (.arr items) =>
          match items.mapM CompletionChoice.fromJson with
          | .error e => .error e
          | .ok choices => .ok ⟨id, created, choices⟩
        | _ => .error .dataErr
  | _ => .error .dataErr

/-- `serde_json::from_str::<CompletionChunk>` on a line: parse the JSON
text, then extract the struct.  (serde decodes while parsing; on the line
shapes scanned here — well-formed records, strict prefixes of records,
and non-JSON text — the classification coincides.) -/
def from_str_chunk (cs : List Char) : Except ErrCat CompletionChunk :=
  match parseJson cs with
  | .error e => .error e
  | .ok j => CompletionChunk.fromJson j

/-- `CompletionChunk::token` (src/client.rs lines 82-88): the first
choice's `delta.content`, when present. -/
def CompletionChunk.token (c : CompletionChunk) : Option String :=
  c.choices.head?.bind (fun ch => ch.delta.content)

end Client

namespace Client

/-- Rust `str::lines`: split at newlines, strip one carriage return
before each newline, and drop the optional final empty line. -/
def linesGo : List Char → List Char → List (List Char)
  | acc, [] => if acc.isEmpty then [] else [acc.reverse]
  | acc, '\n' :: t =>
    (match acc with
     | '\r' :: acc2 => acc2.reverse
     | _ => acc.reverse) :: linesGo [] t
  | acc, c :: t => linesGo (c :: acc) t

def linesOf (cs : List Char) : List (List Char) := linesGo [] cs

/-- Whitespace for Rust `str::trim` (the ASCII fragment of the Unicode
White_Space class; all inputs here are ASCII). -/
def isTrimWs (c : Char) : Bool := c = ' ' ∨ c = '\t' ∨ c = '\n' ∨ c = '\r'

def trimChars (cs : List Char) : List Char :=
  ((cs.dropWhile isTrimWs).reverse.dropWhile isTrimWs).reverse

/-- The characters of the SSE tag `data:`. -/
def dataTag : List Char := ['d', 'a', 't', 'a', ':']

/-- `str::trim_start_matches("data:")`: remove every immediately repeated
leading occurrence of the tag.  Fuel at least the input length is exact. -/
def stripDataTags : Nat → List Char → List Char
  | 0, cs => cs
  | fuel + 1, cs =>
    if dataTag.isPrefixOf cs then stripDataTags fuel (cs.drop 5) else cs

/-- Per-line processing in `try_parse_chunks` (src/client.rs line 97):
`ln.trim().trim_start_matches("data:").trim()`. -/
def processLine (ln : List Char) : List Char :=
  let t := trimChars ln
  trimChars (stripDataTags t.length t)

/-- The processed, non-empty input lines (src/client.rs lines 95-99). -/
def inputLines (cs : List Char) : List (List Char) :=
  ((linesOf cs).map processLine).filter (fun l => ¬ l.isEmpty)

/-- The characters of the stream sentinel literal `[DONE]`. -/
def doneChars : List Char := ['[', 'D', 'O', 'N', 'E', ']']

/-- The scan loop of `try_parse_chunks` (src/client.rs lines 101-113)
over the processed lines: a line that decodes is collected; an eof
failure stops with the remaining lines rejoined as the remainder; a
syntax failure on the `[DONE]` sentinel stops with no remainder; any
other failure fails the whole parse (discarding collected chunks). -/
def chunkScan : List (List Char) → Except ErrCat (List CompletionChunk × Option (List Char))
  | [] => .ok ([], none)
  | ln :: rest =>
    match from_str_chunk ln with
    | .ok c =>
      match chunkScan rest with
      | .error e => .error e
      | .ok (cs, rem) => .ok (c :: cs, rem)
    | .error .eofErr => .ok ([], some (List.intercalate ['\n'] (ln :: rest)))
    | .error .synErr =>
      if ln = doneChars then .ok ([], none) else .error .synErr
    | .error .dataErr => .error .dataErr

/-- `try_parse_chunks` (src/client.rs lines 90-122) on characters:
process the lines, run the scan, and wrap an empty chunk vector as
`None`. -/
def try_parse_chunksC (cs : List Char) :
    Except ErrCat (Option (List CompletionChunk) × Option (List Char)) :=
  match chunkScan (inputLines cs) with
  | .error e => .error e
  | .ok (chunks, rem) =>
    .ok ((if chunks.isEmpty then none else some chunks), rem)

/-- `try_parse_chunks` on strings. -/
def try_parse_chunks (input : String) :
    Except ErrCat (Option (List CompletionChunk) × Option String) :=
  match try_parse_chunksC input.toList with
  | .error e => .error e
  | .ok (chunks, rem) => .ok (chunks, rem.map (fun l => String.mk l))

/-- Chunk-at-a-time feeding with the remainder carried forward (new input
= previous remainder ++ next chunk), concatenating the records of every
call — the protocol of the background loop in `stream_thread_reply`
(src/client.rs lines 151-173) and the subject of the parser guarantee. -/
def feedChunksAux : List String → List Char → Except ErrCat (List CompletionChunk)
  | [], _carry => .ok []
  | chunk :: rest, carry =>
    match try_parse_chunksC (carry ++ chunk.toList) with
    | .error e => .error e
    | .ok (parsed, rem) =>
      match feedChunksAux rest (rem.getD []) with
      | .error e => .error e
      | .ok more => .ok ((parsed.getD []).map id ++ more)

def feedChunks (chunks : List String) : Except ErrCat (List CompletionChunk) :=
  feedChunksAux chunks []

/-- The background task of `stream_thread_reply` (src/client.rs lines
143-178) as a function of the HTTP body's byte-chunk sequence: each
chunk is appended to the accumulator, the parser runs, the remainder is
carried back, and each record's token (when present) is sent as
`Some`; a parse failure aborts the task before sending anything further;
when the body ends, `None` is sent.  Returns the channel contents and
whether the task completed normally. -/
def streamTaskAux : List String → List Char → List (Option String) × Bool
  | [], _buf => ([none], true)
  | chunk :: rest, buf =>
    match try_parse_chunksC (buf ++ chunk.toList) with
    | .error _ => ([], false)
    | .ok (parsed, rem) =>
      let toks := (parsed.getD []).filterMap CompletionChunk.token
      let (tail, done) := streamTaskAux rest (rem.getD [])
      (toks.map some ++ tail, done)

def streamTaskSends (chunks : List String) : List (Option String) × Bool :=
  streamTaskAux chunks []

/-- Handle returned by `stream_thread_reply`: the receiver, plus how many
background tasks were spawned before returning. -/
structure StreamHandle where
  receiver : Unit
  spawnedTasks : Nat
deriving DecidableEq, Repr

end Client

/-! ## Session threads (src/session.rs) -/

namespace SessionS

/-- `Message` of src/session.rs as consumed by thread ordering and the
stream precondition: role, content and UTC timestamp (milliseconds). -/
structure SMessage where
  role : Msg.Role
  content : String
  timestampMillis : Int
deriving DecidableEq, Repr

def SMessage.is_user (m : SMessage) : Bool := m.role == .user

def SMessage.is_system (m : SMessage) : Bool := m.role == .system

/-- `Thread` of src/session.rs: ordered message list, model label, id. -/
structure SThread where
  messages : List SMessage
  model : String
  id : Nat
deriving DecidableEq, Repr

/-- `Thread::last_message` (src/session.rs lines 393-396). -/
def SThread.last_message (t : SThread) : Option SMessage := t.messages.getLast?

/-- `Thread::init_time` (src/session.rs lines 379-382): the timestamp of
the first message in the list. -/
def SThread.init_time (t : SThread) : Option Int :=
  t.messages.head?.map (fun m => m.timestampMillis)

/-- `Thread::first_message` (src/session.rs lines 388-391): the first
non-system message. -/
def SThread.first_message (t : SThread) : Option SMessage :=
  t.messages.find? (fun m => ¬ m.is_system)

/-- `Session.threads` in iteration order (the source holds a HashMap
whose iteration order is arbitrary; the list fixes one such order). -/
structure Session where
  threads : List (Nat × SThread)
deriving DecidableEq, Repr

/-- Stable insertion into a list sorted by an integer key: the new
element goes after every element whose key is not greater. -/
def insertByKey {α : Type} (key : α → Int) (x : α) : List α → List α
  | [] => [x]
  | y :: ys => if key x < key y then x :: y :: ys else y :: insertByKey key x ys

/-- Stable sort by an integer key (`itertools::sorted_by_key`). -/
def sortByKey {α : Type} (key : α → Int) (l : List α) : List α :=
  l.foldl (fun acc x => insertByKey key x acc) []

/-- `Session::ordered_threads` (src/session.rs lines 591-599): the
non-empty threads sorted by `init_time` (the filter guarantees the
`expect` on `init_time` succeeds, so the default never applies). -/
def Session.ordered_threads (s : Session) : List (Nat × SThread) :=
  sortByKey (fun p => (p.2.init_time).getD 0)
    (s.threads.filter (fun p => ¬ p.2.messages.isEmpty))

/-- The ordering the specification describes (spec §4.6 and scenario 4,
written from the spec's words for comparison with the source): non-empty
threads sorted ascending by the timestamp of the first non-system
message. -/
def Session.spec_ordered_threads (s : Session) : List (Nat × SThread) :=
  sortByKey (fun p => ((p.2.first_message).map (fun m => m.timestampMillis)).getD 0)
    (s.threads.filter (fun p => ¬ p.2.messages.isEmpty))

end SessionS

namespace Client

/-- The precondition gate of `stream_thread_reply` (src/client.rs lines
123-137): if the thread's last message is not from a user the call fails
with the state error before any client is built or any task spawned;
otherwise the channel is created, one background task is spawned, and
the receiver is returned immediately.  (HTTP client construction is an
external collaborator assumed available.) -/
def stream_thread_reply (t : SessionS.SThread) : Except String StreamHandle :=
  if ((t.last_message.map SessionS.SMessage.is_user).getD false) = false then
    .error "The most recent messege in the thread must be from a user"
  else
    .ok { receiver := (), spawnedTasks := 1 }

end Client

/-! ## Thread store (src/db.rs) -/

namespace Db

/-- `LlmModel` (src/llm.rs lines 17-24). -/
inductive LlmModel where
  | gpt4 : LlmModel
  | gpt35turbo : LlmModel
deriving DecidableEq, Repr

/-- `Display for LlmModel` (src/llm.rs lines 75-84). -/
def LlmModel.label : LlmModel → String
  | .gpt4 => "gpt-4"
  | .gpt35turbo => "gpt-3.5-turbo"

/-- `LlmModel::from_label` (src/llm.rs lines 92-100). -/
def LlmModel.from_label (s : String) : Option LlmModel :=
  if s = "gpt-4" then some .gpt4
  else if s = "gpt-3.5-turbo" then some .gpt35turbo
  else none

/-- A `Summary` entry as stored and loaded by src/db.rs: owning thread
id, half-open message index range, and content. -/
structure Summary where
  thread_id : String
  start_index : Nat
  end_index : Nat
  content : String
deriving DecidableEq, Repr

/-- The `Thread` persisted by src/db.rs (its struct lives in the session
module; fields are those read by `to_db`/`from_db` and described in spec
§3: messages, model, identifier, optional title, summary entries). -/
structure DbThread where
  messages : List Msg.Message
  model : LlmModel
  id : String
  title : Option String
  summary_entries : List Summary
deriving DecidableEq, Repr

/-- `Thread::str_id`. -/
def DbThread.str_id (t : DbThread) : String := t.id

/-- `Thread::thread_title`. -/
def DbThread.thread_title (t : DbThread) : Option String := t.title

/-- `Thread::new(messages, model, id)` as called by `from_db`. -/
def DbThread.new (messages : List Msg.Message) (model : LlmModel) (id : String) : DbThread :=
  { messages := messages, model := model, id := id, title := none, summary_entries := [] }

/-- A row of the `message` table (schema §4.5): thread id, role number,
content, timestamp (REAL, exact here), tokens. -/
structure MsgRow where
  thread_id : String
  role : Nat
  content : String
  timestamp : ℚ
  tokens : Option Nat
deriving DecidableEq, Repr

/-- A row of the `summary` table, unique on (thread_id, start, end). -/
structure SumRow where
  thread_id : String
  start_index : Nat
  end_index : Nat
  content : String
deriving DecidableEq, Repr

/-- The store state: the four tables.  `thread` and `title` are keyed by
id; `message` has no key; `summary` is unique on its triple. -/
structure Store where
  thread : List (String × String)
  title : List (String × String)
  message : List MsgRow
  summary : List SumRow
deriving DecidableEq, Repr

def Store.empty : Store := { thread := [], title := [], message := [], summary := [] }

/-- `INSERT OR IGNORE INTO thread`. -/
def insertThreadRow (db : Store) (id model : String) : Store :=
  if db.thread.any (fun p => p.1 = id) then db
  else { db with thread := db.thread ++ [(id, model)] }

/-- `INSERT OR IGNORE INTO title`. -/
def insertTitleRow (db : Store) (id content : String) : Store :=
  if db.title.any (fun p => p.1 = id) then db
  else { db with title := db.title ++ [(id, content)] }

/-- `SELECT timestamp FROM message WHERE thread_id = ? ORDER BY timestamp
DESC LIMIT 1`: the maximum stored timestamp for the thread, if any rows
exist. -/
def maxQ : List ℚ → Option ℚ
  | [] => none
  | x :: xs =>
    some (match maxQ xs with
      | none => x
      | some m => max x m)

def maxTimestamp (db : Store) (id : String) : Option ℚ :=
  maxQ ((db.message.filter (fun r => r.thread_id = id)).map (fun r => r.timestamp))

/-- One write inside the save transaction. -/
inductive TxWrite where
  | msgInsert : MsgRow → TxWrite
  | sumInsert : SumRow → TxWrite
deriving DecidableEq, Repr

/-- Apply one transactional write: plain insert for message rows, insert
or ignore on the triple for summary rows. -/
def applyWrite (db : Store) : TxWrite → Store
  | .msgInsert r => { db with message := db.message ++ [r] }
  | .sumInsert r =>
    if db.summary.any (fun s => s.thread_id = r.thread_id ∧
        s.start_index = r.start_index ∧ s.end_index = r.end_index) then db
    else { db with summary := db.summary ++ [r] }

/-- `tx.commit()`: the writes of one transaction applied atomically. -/
def commitTx (db : Store) (ws : List TxWrite) : Store := ws.foldl applyWrite db

/-- The in-memory messages whose timestamps strictly exceed the stored
maximum (src/db.rs lines 91-99); with no stored rows, all of them. -/
def messagesToStore (t : DbThread) (db : Store) : List Msg.Message :=
  match maxTimestamp db t.str_id with
  | some n => t.messages.filter (fun m => n < m.timestamp_epoch)
  | none => t.messages

/-- The message-insert writes of one save. -/
def msgWrites (t : DbThread) (db : Store) : List TxWrite :=
  (messagesToStore t db).map (fun m =>
    .msgInsert ⟨t.str_id, m.role.to_num, m.content, m.timestamp_epoch, m.token_count⟩)

/-- The summary-upsert writes of one save. -/
def sumWrites (t : DbThread) : List TxWrite :=
  t.summary_entries.map (fun s =>
    .sumInsert ⟨t.str_id, s.start_index, s.end_index, s.content⟩)

/-- The part of `to_db` before the transaction: thread upsert, optional
title upsert. -/
def savePreamble (t : DbThread) (db : Store) : Store :=
  let db1 := insertThreadRow db t.str_id t.model.label
  match t.thread_title with
  | some title => insertTitleRow db1 t.str_id title
  | none => db1

/-- `<Thread as DbStore>::to_db` (src/db.rs lines 65-135): upsert thread
and title, read the stored maximum timestamp, then write the newer
messages and all summary rows in one transaction. -/
def to_db (t : DbThread) (db : Store) : Store :=
  let db1 := savePreamble t db
  commitTx db1 (msgWrites t db1 ++ sumWrites t)

/-- Errors of `from_db`. -/
inductive DbErr where
  | noRows : DbErr
  | invalidModel : DbErr
  | invalidRole : DbErr
deriving DecidableEq, Repr

/-- Stable insertion into a list sorted by rational key. -/
def insertByTs (x : MsgRow) : List MsgRow → List MsgRow
  | [] => [x]
  | y :: ys => if x.timestamp < y.timestamp then x :: y :: ys else y :: insertByTs x ys

/-- `ORDER BY timestamp ASC` over the selected rows (stable in row
order). -/
def sortByTs (l : List MsgRow) : List MsgRow :=
  l.foldl (fun acc x => insertByTs x acc) []

/-- `<Thread as DbStore>::from_db` (src/db.rs lines 137-207): read the
thread row (error if missing), decode the model label, read the messages
in ascending timestamp order rebuilding each through
`Message::new_from_db` (invalid role numbers are a parse error), then
the optional title and the summary rows. -/
def from_db (db : Store) (id : String) : Except DbErr DbThread :=
  match db.thread.find? (fun p => p.1 = id) with
  | none => .error .noRows
  | some (_, modelLabel) =>
    match LlmModel.from_label modelLabel with
    | none => .error .invalidModel
    | some model =>
      let rows := sortByTs (db.message.filter (fun r => r.thread_id = id))
      match rows.mapM (fun r =>
          (Msg.Role.from_num r.role).map (fun role =>
            Msg.Message.new_from_db role r.content r.timestamp r.tokens)) with
      | none => .error .invalidRole
      | some messages =>
        let base := DbThread.new messages model id
        let withSums := { base with summary_entries :=
          (db.summary.filter (fun r => r.thread_id = id)).map (fun r =>
            ⟨id, r.start_index, r.end_index, r.content⟩) }
        match db.title.find? (fun p => p.1 = id) with
        | some (_, titleContent) => .ok { withSums with title := some titleContent }
        | none => .ok withSums

end Db

/-! ## Shared instances and concrete inputs used by the theorems -/

instance {e a : Type} [DecidableEq e] [DecidableEq a] : DecidableEq (Except e a) := fun x y =>
  match x, y with
  | .ok v, .ok w =>
    if h : v = w then .isTrue (by rw [h]) else .isFalse (fun hh => by cases hh; exact h rfl)
  | .error v, .error w =>
    if h : v = w then .isTrue (by rw [h]) else .isFalse (fun hh => by cases hh; exact h rfl)
  | .ok _, .error _ => .isFalse (fun hh => by cases hh)
  | .error _, .ok _ => .isFalse (fun hh => by cases hh)

namespace Client

/-- The scan of the specification's words (§4.1 outcomes per line, with
the tag stripping amended to remove every immediately repeated leading
tag): records are appended in order; an unexpected-end-of-input decode
stops the scan with the rest rejoined as remainder; a syntax failure on
the `[DONE]` sentinel ends the stream; any other failure is a parse
error. -/
def specScanGo (acc : List CompletionChunk) :
    List (List Char) → Except ErrCat (List CompletionChunk × Option (List Char))
  | [] => .ok (acc, none)
  | ln :: rest =>
    match from_str_chunk ln with
    | .ok c => specScanGo (acc ++ [c]) rest
    | .error .eofErr => .ok (acc, some (List.intercalate ['\n'] (ln :: rest)))
    | .error .synErr =>
      if ln = doneChars then .ok (acc, none) else .error .synErr
    | .error .dataErr => .error .dataErr

/-- The specification's parse contract, written from its words: process
the non-empty lines in order (each trimmed and with all leading tags
stripped) through the per-line outcomes. -/
def specParse (cs : List Char) : Except ErrCat (List CompletionChunk × Option (List Char)) :=
  specScanGo [] (inputLines cs)

/-- `trim_start_matches` under the frozen claim's reading: strip a single
leading `data:` tag. -/
def stripOneDataTag (cs : List Char) : List Char :=
  if dataTag.isPrefixOf cs then cs.drop 5 else cs

/-- Per-line processing under the frozen claim's reading (one tag). -/
def claimProcessLine (ln : List Char) : List Char :=
  trimChars (stripOneDataTag (trimChars ln))

/-- The frozen claim's parse contract: like `specParse` but stripping
only one leading tag per line. -/
def claimParse (cs : List Char) : Except ErrCat (List CompletionChunk × Option (List Char)) :=
  specScanGo [] (((linesOf cs).map claimProcessLine).filter (fun l => ¬ l.isEmpty))

/-- First record line of spec §8 scenario 1 (the source's test data). -/
def scenarioLine1 : String :=
  "data: \x7b\"id\":\"chatcmpl-123\",\"object\":\"chat.completion.chunk\",\"created\":1694268190,\"model\":\"gpt-3.5-turbo-0613\", \"system_fingerprint\": \"fp_44709d6fcb\", \"choices\":[\x7b\"index\":0,\"delta\":\x7b\"role\":\"assistant\",\"content\":\"\"\x7d,\"finish_reason\":null\x7d]\x7d"

/-- Second record line of scenario 1. -/
def scenarioLine2 : String :=
  "data: \x7b\"id\":\"chatcmpl-123\",\"object\":\"chat.completion.chunk\",\"created\":1694268190,\"model\":\"gpt-3.5-turbo-0613\", \"system_fingerprint\": \"fp_44709d6fcb\", \"choices\":[\x7b\"index\":0,\"delta\":\x7b\"content\":\"!\"\x7d,\"finish_reason\":null\x7d]\x7d"

/-- Third record line of scenario 1. -/
def scenarioLine3 : String :=
  "data: \x7b\"id\":\"chatcmpl-123\",\"object\":\"chat.completion.chunk\",\"created\":1694268190,\"model\":\"gpt-3.5-turbo-0613\", \"system_fingerprint\": \"fp_44709d6fcb\", \"choices\":[\x7b\"index\":0,\"delta\":\x7b\"content\":\" today\"\x7d,\"finish_reason\":null\x7d]\x7d"

/-- The trailing partial line of scenario 1. -/
def scenarioPartial : String :=
  "\x7b\"id\":\"chatcmpl-123\",\"object\":\"chat.completion.chunk\", \"c"

/-- The full scenario input (the source test's raw string, src/client.rs
lines 238-243). -/
def scenarioData : String :=
  "\n         " ++ scenarioLine1 ++ "\n" ++ scenarioLine2 ++ "\n" ++ scenarioLine3
    ++ "\n" ++ scenarioPartial ++ "\n        "

/-- The record the scenario lines decode to, per token. -/
def scenarioChunk (tok : String) : CompletionChunk :=
  { id := "chatcmpl-123", created := 1694268190,
    choices := [{ delta := { content := some tok }, finish_reason := none, index := 0 }] }

/-- A single-record stream used for the chunk-splitting divergence. -/
def c1Stream : String := "data: \x7b\"id\":\"a\",\"created\":1,\"choices\":[]\x7d"

/-- The second half of `c1Stream` when split inside the `data:` tag. -/
def c1Tail : String := "ta: \x7b\"id\":\"a\",\"created\":1,\"choices\":[]\x7d"

/-- The record `c1Stream` carries. -/
def c1Chunk : CompletionChunk := { id := "a", created := 1, choices := [] }

end Client

namespace Msg

/-- Tail condition for the marker-counting argument: the text does not
begin with any of the three overlap-enabling suffixes of the marker. -/
def GoodTail (l : List Char) : Prop :=
  ¬ (markerChars.drop 1 <+: l) ∧ ¬ (markerChars.drop 2 <+: l) ∧ ¬ (markerChars.drop 3 <+: l)

end Msg

namespace SessionS

/-- Thread A of the ordering divergence: system prompt at t=10, first
user message at t=20. -/
def thA : SThread :=
  { messages := [{ role := .system, content := "p", timestampMillis := 10 },
                 { role := .user, content := "a", timestampMillis := 20 }],
    model := "gpt-4", id := 1 }

/-- Thread B: system prompt at t=15, first user message at t=16. -/
def thB : SThread :=
  { messages := [{ role := .system, content := "p", timestampMillis := 15 },
                 { role := .user, content := "b", timestampMillis := 16 }],
    model := "gpt-4", id := 2 }

/-- A thread with no messages, excluded from the ordered listing. -/
def thEmpty : SThread := { messages := [], model := "gpt-4", id := 3 }

/-- The session holding A, B and an empty thread. -/
def sessAB : Session := { threads := [(1, thA), (2, thB), (3, thEmpty)] }

end SessionS

namespace Db

/-- A message carrying a half-second timestamp (epoch 100.5 s, i.e.
1970-01-01T00:01:40.500Z). -/
def c6msg : Msg.Message := Msg.Message.new .user "hi" 100500

/-- The thread holding `c6msg`, with a title and a summary row, saved and
reloaded for the fixpoint check. -/
def c6thread : DbThread :=
  { messages := [c6msg], model := .gpt4, id := "t1",
    title := some "a title",
    summary_entries := [{ thread_id := "t1", start_index := 0, end_index := 1, content := "s" }] }

end Db

namespace Tui

/-- A copy-mode App over one code block, for the digit-zero divergence. -/
def c9App : App :=
  { App.defaults ["first block"] with copy_mode := true }

/-- Key event: the digit key `0` with no modifiers. -/
def digitKey (c : Char) : KeyEv := { code := .char c, ctrl := false, alt := false, shift := false }

/-- Key event: Enter with no modifiers. -/
def enterKey : KeyEv := { code := .enter, ctrl := false, alt := false, shift := false }

end Tui

namespace Client

/-- The tokens a reply stream produces, in production order: for each
parser invocation, the tokens of its records (records whose first choice
has an absent or null `delta.content` contribute nothing). -/
def streamTokensAux : List String → List Char → List String
  | [], _buf => []
  | chunk :: rest, buf =>
    match try_parse_chunksC (buf ++ chunk.toList) with
    | .error _ => []
    | .ok (parsed, rem) =>
      (parsed.getD []).filterMap CompletionChunk.token ++ streamTokensAux rest (rem.getD [])

def streamTokens (chunks : List String) : List String := streamTokensAux chunks []

end Client

/-! ## Theorems -/

set_option maxRecDepth 200000

/-- Helper: the stream gate's boolean in terms of the last message. -/
theorem lastUserBool_iff (t : SessionS.SThread) :
    ((t.last_message.map SessionS.SMessage.is_user).getD false) = true ↔
      ∃ m, t.last_message = some m ∧ m.role = Msg.Role.user := by
  cases h : t.last_message with
  | none => simp [h]
  | some m =>
    simp [h, SessionS.SMessage.is_user]

/-- C7: `stream_thread_reply` fails with the state error — returning no
receiver and spawning no task — exactly when the thread's last message is
not a User message (in particular when the thread is empty); with a User
message last it returns the receiver of a single spawned task. -/
theorem c7_stream_reply_requires_user_last (t : SessionS.SThread) :
    (¬ (∃ m, t.last_message = some m ∧ m.role = Msg.Role.user) →
      Client.stream_thread_reply t =
        .error "The most recent messege in the thread must be from a user") ∧
    ((∃ m, t.last_message = some m ∧ m.role = Msg.Role.user) →
      Client.stream_thread_reply t = .ok { receiver := (), spawnedTasks := 1 }) ∧
    (t.messages = [] → ¬ ∃ m, t.last_message = some m ∧ m.role = Msg.Role.user) := by
  refine ⟨fun h => ?_, fun h => ?_, fun h => ?_⟩
  · have hb : ((t.last_message.map SessionS.SMessage.is_user).getD false) = false := by
      rcases hb : ((t.last_message.map SessionS.SMessage.is_user).getD false) with _ | _
      · rfl
      · exact absurd ((lastUserBool_iff t).mp hb) h
    simp [Client.stream_thread_reply, hb]
  · have hb := (lastUserBool_iff t).mpr h
    simp [Client.stream_thread_reply, hb]
  · rintro ⟨m, hm, _⟩
    simp [SessionS.SThread.last_message, h] at hm

/-- Witness for C7 at a one-user-message thread and at an empty thread. -/
theorem c7_witness :
    Client.stream_thread_reply
        { messages := [{ role := .user, content := "q", timestampMillis := 5 }],
          model := "gpt-4", id := 9 } = .ok { receiver := (), spawnedTasks := 1 } ∧
    Client.stream_thread_reply { messages := [], model := "gpt-4", id := 9 } =
      .error "The most recent messege in the thread must be from a user" := by
  constructor
  · exact (c7_stream_reply_requires_user_last _).2.1 ⟨_, rfl, rfl⟩
  · exact (c7_stream_reply_requires_user_last _).1
      ((c7_stream_reply_requires_user_last _).2.2 rfl)

/-- C8: the source orders the listing by each thread's first message —
the system prompt — not by the first non-system message as specified:
with system prompts at t=10 and t=15 but first user messages at t=20 and
t=16, the source returns A before B while the specified order is B
before A (empty threads are excluded either way). -/
theorem c8_ordering_divergence :
    SessionS.sessAB.ordered_threads = [(1, SessionS.thA), (2, SessionS.thB)] ∧
    SessionS.sessAB.spec_ordered_threads = [(2, SessionS.thB), (1, SessionS.thA)] ∧
    SessionS.sessAB.ordered_threads ≠ SessionS.sessAB.spec_ordered_threads := by
  refine ⟨by decide, by decide, by decide⟩

/-- C1: splitting the stream inside the `data:` tag breaks the
chunk-feeding guarantee: the whole stream parses to one record, but
feeding it as `["da", "ta: …"]` makes the parser fail on the first call
("da" is a syntax error, not an unexpected end of input). -/
theorem c1_chunk_split_divergence :
    Client.c1Stream = "da" ++ Client.c1Tail ∧
    Client.try_parse_chunks Client.c1Stream = .ok (some [Client.c1Chunk], none) ∧
    Client.feedChunks ["da", Client.c1Tail] = .error .synErr := by
  refine ⟨by decide, by decide, by decide⟩

/-- C3 counterexample: an HTTP body that completes normally but carries
an unparseable line (`zzz`) makes the background task abort before the
sentinel: the channel carries no values at all, so the delivered
sequence does not end with a `None`. -/
theorem c3_counterexample :
    (Client.streamTaskSends ["zzz"]).1 = [] ∧
    ¬ ∃ toks : List String, (Client.streamTaskSends ["zzz"]).1 = toks.map some ++ [none] := by
  constructor
  · decide
  · rintro ⟨toks, h⟩
    rw [show (Client.streamTaskSends ["zzz"]).1 = [] by decide] at h
    rcases List.append_eq_nil.mp h.symm with ⟨-, h2⟩
    cases h2

/-- Helper for C3: when every parser invocation succeeds, the channel
contents are the produced tokens in order followed by the sentinel. -/
theorem streamTaskAux_ok (chunks : List String) :
    ∀ buf, (Client.streamTaskAux chunks buf).2 = true →
      (Client.streamTaskAux chunks buf).1 =
        (Client.streamTokensAux chunks buf).map some ++ [none] := by
  induction chunks with
  | nil => intro buf _; simp [Client.streamTaskAux, Client.streamTokensAux]
  | cons c rest ih =>
    intro buf hdone
    simp only [Client.streamTaskAux, Client.streamTokensAux] at hdone ⊢
    split at hdone
    next e heq =>
      simp at hdone
    next parsed rem heq =>
      dsimp only at hdone ⊢
      rw [ih _ hdone]
      simp

/-- C3 (amended): for every reply stream whose HTTP request and body
complete without error and whose chunk parses all succeed, the channel
delivers zero or more `Some(token)` values in production order followed
by exactly one `None` as the last item (a record whose first choice has
an absent or null `delta.content` contributes no token by construction
of `CompletionChunk.token`). -/
theorem c3_stream_termination (chunks : List String)
    (h : (Client.streamTaskSends chunks).2 = true) :
    (Client.streamTaskSends chunks).1 =
      (Client.streamTokens chunks).map some ++ [none] := by
  exact streamTaskAux_ok chunks [] h

/-- Witness for C3 at a stream of one record line and the sentinel. -/
theorem c3_witness :
    (Client.streamTaskSends [Client.c1Stream ++ "\n", "data: [DONE]\n"]).1 =
      [none] := by
  have h := c3_stream_termination [Client.c1Stream ++ "\n", "data: [DONE]\n"] (by decide)
  rw [h, show Client.streamTokens [Client.c1Stream ++ "\n", "data: [DONE]\n"] = [] by decide]
  rfl

/-- C9 counterexample: with one code block present, typing the digit `0`
in copy mode does not alert "No selection for '0'!" and exit as the
claim's 1-based contract demands; the source's `saturating_sub` accepts
0 as a selection (shown as `0` in the alert) and Enter then copies the
first block. -/
theorem c9_counterexample :
    (Tui.c9App.update_copy_mode (Tui.digitKey '0')).copy_mode = true ∧
    (Tui.c9App.update_copy_mode (Tui.digitKey '0')).selected_block_index = some 0 ∧
    (Tui.c9App.update_copy_mode (Tui.digitKey '0')).bottom_text = none ∧
    ¬ ((Tui.c9App.update_copy_mode (Tui.digitKey '0')).copy_mode = false ∧
        (Tui.c9App.update_copy_mode (Tui.digitKey '0')).bottom_text =
          some "No selection for '0'!") ∧
    ((Tui.c9App.update_copy_mode (Tui.digitKey '0')).update_copy_mode
        Tui.enterKey).clipboard = ["first block"] := by
  refine ⟨by decide, by decide, by decide, by decide, by decide⟩

/-- C9 (amended): in copy mode each typed ascii digit is appended to the
buffer, which is reparsed as an integer N; if the thread has a code
block at 1-based position max(N,1) — so 0 resolves to the first block —
the selection becomes N and the bottom alert shows N; if the parse
succeeds but there is no such block, the alert becomes
"No selection for 'N'!" and copy mode exits with the buffer cleared; an
unparseable buffer exits copy mode silently.  Enter with a selection N
whose block at position max(N,1) exists copies that block's content to
the clipboard and exits copy mode. -/
theorem c9_copy_mode_selection :
    (∀ (a : Tui.App) (c : Char), a.copy_mode = true → c.isDigit = true →
      (match Tui.parseUsize (a.copy_select_buf.push c) with
       | some n =>
         if (a.threadBlocks.get? (n - 1)).isSome then
           a.update_copy_mode (Tui.digitKey c) =
             { a with copy_select_buf := a.copy_select_buf.push c,
                      selected_block_index := some n, bottom_text := none } ∧
           (a.update_copy_mode (Tui.digitKey c)).alertMsg = some (toString n)
         else
           a.update_copy_mode (Tui.digitKey c) =
             { a with copy_select_buf := "", copy_mode := false,
                      bottom_text := some ("No selection for '" ++ toString n ++ "'!") }
       | none =>
         a.update_copy_mode (Tui.digitKey c) =
           { a with copy_select_buf := "", copy_mode := false })) ∧
    (∀ (a : Tui.App) (n : Nat) (block : String),
      a.selected_block_index = some n →
      a.threadBlocks.get? (n - 1) = some block →
      a.update_copy_mode Tui.enterKey =
        { a with clipboard := a.clipboard ++ [block],
                 bottom_text := some ("Copied '" ++ Tui.string_preview block 30 ++ "'"),
                 copy_select_buf := "", copy_mode := false }) := by
  constructor
  · intro a c _hc hdig
    simp only [Tui.App.update_copy_mode, Tui.digitKey, hdig, if_pos]
    rcases hp : Tui.parseUsize (a.copy_select_buf.push c) with _ | n
    · simp [hp]
    · simp only [hp]
      rcases hg : (a.threadBlocks.get? (n - 1)).isSome with _ | _
      · simp [hg, Tui.App.alertMsg]
      · simp [hg, Tui.App.alertMsg]
  · intro a n block hsel hget
    rw [List.get?_eq_getElem?] at hget
    simp [Tui.App.update_copy_mode, Tui.enterKey, hsel, hget, Tui.App.exit_copy_mode]

/-- Witness for C9: three blocks; pressing `2` then Enter copies the
second block; pressing `9` alerts "No selection for '9'!" and exits
copy mode. -/
theorem c9_witness :
    ((({ Tui.App.defaults ["b1", "b2", "b3"] with copy_mode := true } : Tui.App).update_copy_mode
        (Tui.digitKey '2')).update_copy_mode Tui.enterKey).clipboard = ["b2"] ∧
    (({ Tui.App.defaults ["b1", "b2", "b3"] with copy_mode := true } : Tui.App).update_copy_mode
        (Tui.digitKey '9')).bottom_text = some "No selection for '9'!" ∧
    (({ Tui.App.defaults ["b1", "b2", "b3"] with copy_mode := true } : Tui.App).update_copy_mode
        (Tui.digitKey '9')).copy_mode = false := by
  have h2 := c9_copy_mode_selection.2
    (({ Tui.App.defaults ["b1", "b2", "b3"] with copy_mode := true } : Tui.App).update_copy_mode
      (Tui.digitKey '2')) 2 "b2" (by decide) (by decide)
  have h9 := c9_copy_mode_selection.1
    ({ Tui.App.defaults ["b1", "b2", "b3"] with copy_mode := true } : Tui.App) '9' rfl rfl
  rw [show Tui.parseUsize
      (({ Tui.App.defaults ["b1", "b2", "b3"] with copy_mode := true } : Tui.App).copy_select_buf.push '9')
      = some 9 by decide] at h9
  simp only [show (({ Tui.App.defaults ["b1", "b2", "b3"] with copy_mode := true } : Tui.App).threadBlocks.get? (9 - 1)).isSome = false by decide, Bool.false_eq_true, if_false] at h9
  refine ⟨?_, ?_, ?_⟩
  · rw [h2]; decide
  · rw [h9]; decide
  · rw [h9]

/-- Helper for C10: `update_copy_mode` preserves the buffer invariant. -/
theorem update_copy_mode_inv (a : Tui.App) (k : Tui.KeyEv)
    (hc : a.copy_mode = true) :
    (a.update_copy_mode k).copy_mode = false → (a.update_copy_mode k).copy_select_buf = "" := by
  unfold Tui.App.update_copy_mode
  split
  · intro _; rfl
  · split
    · intro h; rw [hc] at h; cases h
    · split
      · intro _; rfl
      · intro _; rfl
  · split
    · dsimp only
      split
      · split
        · intro h; rw [hc] at h; cases h
        · intro _; rfl
      · intro _; rfl
    · intro h; rw [hc] at h; cases h
  · intro h; rw [hc] at h; cases h

/-- Helper for C10: `update_awaiting_send` preserves the buffer
invariant. -/
theorem update_awaiting_send_inv (a : Tui.App) (ev : Tui.TermEvent)
    (ih : a.copy_mode = false → a.copy_select_buf = "") :
    (a.update_awaiting_send ev).copy_mode = false →
      (a.update_awaiting_send ev).copy_select_buf = "" := by
  cases ev with
  | mouseScrollUp => exact ih
  | mouseScrollDown => exact ih
  | otherEvent => exact ih
  | key k =>
    show ((if k.code = .char 'c' ∧ k.modCtrl then { a with should_quit := true }
      else if k.code = .up then a.scroll_up Tui.SCROLL_STEP
      else if k.code = .down then a.scroll_down Tui.SCROLL_STEP
      else if a.copy_mode then a.update_copy_mode k
      else if k.code = .char 'w' ∧ k.modCtrl then { a with copy_mode := true }
      else if k.code = .char 'e' ∧ k.modCtrl then { a with should_show_editor := true }
      else if k.code = .enter ∧ k.modAlt then
        if a.user_message ≠ "" then a.send_message else a
      else if k.code = .enter then { a with user_message := a.user_message.push '\n' }
      else
        match k.code with
        | .char c =>
          if k.modShift then { a with user_message := a.user_message.push c.toUpper }
          else { a with user_message := a.user_message.push c }
        | .backspace => { a with user_message := a.user_message.dropRight 1 }
        | _ => a : Tui.App).copy_mode = false →
      (if k.code = .char 'c' ∧ k.modCtrl then { a with should_quit := true }
      else if k.code = .up then a.scroll_up Tui.SCROLL_STEP
      else if k.code = .down then a.scroll_down Tui.SCROLL_STEP
      else if a.copy_mode then a.update_copy_mode k
      else if k.code = .char 'w' ∧ k.modCtrl then { a with copy_mode := true }
      else if k.code = .char 'e' ∧ k.modCtrl then { a with should_show_editor := true }
      else if k.code = .enter ∧ k.modAlt then
        if a.user_message ≠ "" then a.send_message else a
      else if k.code = .enter then { a with user_message := a.user_message.push '\n' }
      else
        match k.code with
        | .char c =>
          if k.modShift then { a with user_message := a.user_message.push c.toUpper }
          else { a with user_message := a.user_message.push c }
        | .backspace => { a with user_message := a.user_message.dropRight 1 }
        | _ => a : Tui.App).copy_select_buf = "")
    split
    · exact ih
    split
    · exact ih
    split
    · exact ih
    split
    next hcopy => exact update_copy_mode_inv a k hcopy
    split
    · intro h; cases h
    split
    · exact ih
    split
    · split
      · exact ih
      · exact ih
    split
    · exact ih
    split
    · split
      · exact ih
      · exact ih
    · exact ih
    · exact ih

/-- Helper for C10: one state-machine step preserves the buffer
invariant. -/
theorem app_step_inv (a : Tui.App) (e : Tui.AppEvent)
    (ih : a.copy_mode = false → a.copy_select_buf = "") :
    (a.step e).copy_mode = false → (a.step e).copy_select_buf = "" := by
  cases e with
  | recv v =>
    simp only [Tui.App.step]
    by_cases hr : a.reply_rx
    · rw [if_pos hr]
      cases v with
      | some s => exact ih
      | none => exact ih
    · rw [if_neg hr]
      exact ih
  | term ev =>
    simp only [Tui.App.step]
    by_cases hr : a.reply_rx
    · rw [if_pos hr]; exact ih
    · rw [if_neg hr]
      exact update_awaiting_send_inv a ev ih

/-- C10: in every reachable App state, if the copy-mode flag is off then
the digit-selection buffer is empty: the App starts with copy mode off
and an empty buffer, digits are appended only while copy mode is on, and
every transition that turns copy mode off also clears the buffer. -/
theorem c10_copy_buffer_empty_when_off (a : Tui.App) (h : Tui.App.Reachable a) :
    a.copy_mode = false → a.copy_select_buf = "" := by
  induction h with
  | init blocks => intro _; rfl
  | step e hr ih => exact app_step_inv _ e ih

/-- Witness for C10 at the initial state and one step. -/
theorem c10_witness :
    ((Tui.App.defaults ["b"]).step (.term (.key Tui.enterKey))).copy_select_buf = "" := by
  exact c10_copy_buffer_empty_when_off _
    (Tui.App.Reachable.step _ (Tui.App.Reachable.init ["b"])) rfl

/-- C6: after saving a thread whose message is stamped 100 500 ms
(epoch 100.5 s), loading it back yields a message stamped 100 000 ms —
`new_from_db` multiplies the fractional seconds by 10⁶ (microseconds)
but passes the result to a nanoseconds argument, so subsecond precision
collapses — while role, content, model, title and summaries do round
trip. -/
theorem c6_load_after_save_truncates_timestamps :
    Db.c6thread.messages.map (fun m => m.timestampMillis) = [100500] ∧
    (Db.from_db (Db.to_db Db.c6thread Db.Store.empty) "t1").map
      (fun t => t.messages.map (fun m => m.timestampMillis)) = .ok [100000] ∧
    (Db.from_db (Db.to_db Db.c6thread Db.Store.empty) "t1").map
      (fun t => (t.messages.map (fun m => (m.role, m.content)), t.model, t.title,
        t.summary_entries)) =
      .ok ([(Msg.Role.user, "hi")], Db.LlmModel.gpt4, some "a title",
        Db.c6thread.summary_entries) := by
  refine ⟨by decide, ?_, ?_⟩ <;>
  · simp [Db.c6thread, Db.c6msg, Db.from_db, Db.to_db, Db.savePreamble, Db.insertThreadRow,
      Db.insertTitleRow, Db.Store.empty, Db.commitTx, Db.msgWrites, Db.sumWrites,
      Db.messagesToStore, Db.maxTimestamp, Db.maxQ, Db.applyWrite,
      Db.DbThread.str_id, Db.DbThread.thread_title, Db.LlmModel.label, Db.LlmModel.from_label,
      Db.sortByTs, Db.insertByTs, Msg.Role.from_num, Msg.Role.to_num,
      Msg.Message.new_from_db, Msg.Message.new, Msg.Message.update_blocks,
      Msg.Message.timestamp_epoch, Db.DbThread.new, List.mapM, List.mapM.loop]
    norm_num [Int.fdiv, Int.fmod, Int.fract, Except.map]

/-- Helper for C2: the accumulator form of the specification's per-line
scan agrees with the source's scan loop. -/
theorem specScanGo_eq (ls : List (List Char)) : ∀ acc,
    Client.specScanGo acc ls = (Client.chunkScan ls).map (fun p => (acc ++ p.1, p.2)) := by
  induction ls with
  | nil => intro acc; simp [Client.specScanGo, Client.chunkScan, Except.map]
  | cons ln rest ih =>
    intro acc
    simp only [Client.specScanGo, Client.chunkScan]
    cases h : Client.from_str_chunk ln with
    | ok c =>
      dsimp only
      rw [ih (acc ++ [c])]
      cases hr : Client.chunkScan rest with
      | error e => simp [Except.map]
      | ok p => simp [Except.map]
    | error e =>
      cases e with
      | eofErr => simp [Except.map]
      | synErr =>
        by_cases hd : ln = Client.doneChars
        · simp [hd, Except.map]
        · simp [hd, Except.map]
      | dataErr => simp [Except.map]

/-- C2 (amended: the source strips every immediately repeated leading
`data:` tag, not just one): the chunk parser processes the non-empty
processed lines in order with the four per-line outcomes of the
specification, and on the three tagged record lines of scenario 1
followed by the partial line it returns three records with tokens
`""`, `"!"`, `" today"` and a remainder equal to the partial line. -/
theorem c2_chunk_parser_line_outcomes :
    (∀ input : List Char, Client.try_parse_chunksC input =
      (Client.specParse input).map
        (fun p => ((if p.1.isEmpty then none else some p.1), p.2))) ∧
    Client.try_parse_chunks Client.scenarioData =
      .ok (some [Client.scenarioChunk "", Client.scenarioChunk "!",
        Client.scenarioChunk " today"], some Client.scenarioPartial) ∧
    ([Client.scenarioChunk "", Client.scenarioChunk "!", Client.scenarioChunk " today"].map
        Client.CompletionChunk.token) = [some "", some "!", some " today"] := by
  refine ⟨?_, by decide, by decide⟩
  intro input
  rw [Client.try_parse_chunksC, Client.specParse, specScanGo_eq]
  cases Client.chunkScan (Client.inputLines input) with
  | error e => rfl
  | ok p => simp [Except.map]

/-- C2 counterexample: on the line `data:data:[DONE]` the source strips
both stacked tags and sees the sentinel (parse succeeds with no records
and no remainder), while the frozen claim's single-tag stripping leaves
`data:[DONE]`, whose decode failure is a syntax error on a non-sentinel
line — a parse failure. -/
theorem c2_counterexample :
    Client.try_parse_chunksC "data:data:[DONE]".toList = .ok (none, none) ∧
    Client.claimParse "data:data:[DONE]".toList = .error .synErr ∧
    ¬ (Client.try_parse_chunksC "data:data:[DONE]".toList =
      (Client.claimParse "data:data:[DONE]".toList).map
        (fun p => ((if p.1.isEmpty then none else some p.1), p.2))) := by
  refine ⟨by decide, by decide, by decide⟩

namespace Db

/-- applyWrite leaves the thread table unchanged. -/
theorem applyWrite_thread (db : Store) (w : TxWrite) : (applyWrite db w).thread = db.thread := by
  cases w with
  | msgInsert r => rfl
  | sumInsert r =>
    simp only [applyWrite]
    split <;> rfl

/-- applyWrite leaves the title table unchanged. -/
theorem applyWrite_title (db : Store) (w : TxWrite) : (applyWrite db w).title = db.title := by
  cases w with
  | msgInsert r => rfl
  | sumInsert r =>
    simp only [applyWrite]
    split <;> rfl

/-- commitTx leaves the thread table unchanged. -/
theorem commitTx_thread (ws : List TxWrite) : ∀ db : Store,
    (commitTx db ws).thread = db.thread := by
  induction ws with
  | nil => intro db; rfl
  | cons w ws ih =>
    intro db
    rw [commitTx, List.foldl_cons,
      show List.foldl applyWrite (applyWrite db w) ws = commitTx (applyWrite db w) ws from rfl,
      ih, applyWrite_thread]

/-- commitTx leaves the title table unchanged. -/
theorem commitTx_title (ws : List TxWrite) : ∀ db : Store,
    (commitTx db ws).title = db.title := by
  induction ws with
  | nil => intro db; rfl
  | cons w ws ih =>
    intro db
    rw [commitTx, List.foldl_cons,
      show List.foldl applyWrite (applyWrite db w) ws = commitTx (applyWrite db w) ws from rfl,
      ih, applyWrite_title]

/-- The message rows a write contributes. -/
theorem applyWrite_message (db : Store) (w : TxWrite) :
    (applyWrite db w).message = db.message ++ (match w with
      | .msgInsert r => [r]
      | .sumInsert _ => []) := by
  cases w with
  | msgInsert r => rfl
  | sumInsert r =>
    simp only [applyWrite]
    split <;> simp

/-- commitTx appends exactly the message-insert rows. -/
theorem commitTx_message (ws : List TxWrite) : ∀ db : Store,
    (commitTx db ws).message = db.message ++ ws.filterMap (fun w => match w with
      | .msgInsert r => some r
      | .sumInsert _ => none) := by
  induction ws with
  | nil => intro db; simp [commitTx]
  | cons w ws ih =>
    intro db
    rw [commitTx, List.foldl_cons,
      show List.foldl applyWrite (applyWrite db w) ws = commitTx (applyWrite db w) ws from rfl,
      ih, applyWrite_message]
    cases w <;> simp

/-- The preamble does not touch the message table. -/
theorem savePreamble_message (t : DbThread) (db : Store) :
    (savePreamble t db).message = db.message := by
  unfold savePreamble insertThreadRow insertTitleRow
  cases t.thread_title <;> dsimp only <;> (repeat' split) <;> rfl

/-- The preamble does not touch the summary table. -/
theorem savePreamble_summary (t : DbThread) (db : Store) :
    (savePreamble t db).summary = db.summary := by
  unfold savePreamble insertThreadRow insertTitleRow
  cases t.thread_title <;> dsimp only <;> (repeat' split) <;> rfl

/-- A transaction split into two batches commits sequentially. -/
theorem commitTx_append (db : Store) (ws1 ws2 : List TxWrite) :
    commitTx db (ws1 ++ ws2) = commitTx (commitTx db ws1) ws2 := by
  unfold commitTx
  exact List.foldl_append _ _ _ _

/-- Members bound the running maximum. -/
theorem maxQ_le_of_mem {l : List ℚ} {a : ℚ} (h : a ∈ l) :
    ∃ m, maxQ l = some m ∧ a ≤ m := by
  induction l with
  | nil => cases h
  | cons x xs ih =>
    rcases List.mem_cons.mp h with rfl | hx
    · cases hm : maxQ xs with
      | none => exact ⟨a, by simp [maxQ, hm], le_refl a⟩
      | some m => exact ⟨max a m, by simp [maxQ, hm], le_max_left a m⟩
    · rcases ih hx with ⟨m, hm, hle⟩
      exact ⟨max x m, by simp [maxQ, hm], le_trans hle (le_max_right x m)⟩

/-- The maximum is a member. -/
theorem maxQ_mem {l : List ℚ} {m : ℚ} (h : maxQ l = some m) : m ∈ l := by
  induction l generalizing m with
  | nil => cases h
  | cons x xs ih =>
    cases hm : maxQ xs with
    | none =>
      rw [maxQ, hm] at h
      dsimp only at h
      cases h
      exact List.mem_cons_self x xs
    | some m2 =>
      rw [maxQ, hm] at h
      dsimp only at h
      cases h
      rcases max_choice x m2 with hc | hc
      · rw [hc]; exact List.mem_cons_self x xs
      · rw [hc]; exact List.mem_cons_of_mem x (ih hm)

/-- `maxQ` is `none` only on the empty list. -/
theorem maxQ_none {l : List ℚ} (h : maxQ l = none) : l = [] := by
  cases l with
  | nil => rfl
  | cons x xs => rw [maxQ] at h; cases h

end Db

namespace Db

/-- A summary triple already present survives any write. -/
theorem applyWrite_sum_mono (db : Store) (w : TxWrite) (r : SumRow)
    (h : (db.summary.any fun s => s.thread_id = r.thread_id ∧
      s.start_index = r.start_index ∧ s.end_index = r.end_index) = true) :
    ((applyWrite db w).summary.any fun s => s.thread_id = r.thread_id ∧
      s.start_index = r.start_index ∧ s.end_index = r.end_index) = true := by
  cases w with
  | msgInsert r2 => exact h
  | sumInsert r2 =>
    simp only [applyWrite]
    split
    · exact h
    · simp only [List.any_append, Bool.or_eq_true]
      exact Or.inl h

/-- A summary triple already present survives a transaction. -/
theorem commitTx_sum_mono (ws : List TxWrite) : ∀ (db : Store) (r : SumRow),
    (db.summary.any fun s => s.thread_id = r.thread_id ∧
      s.start_index = r.start_index ∧ s.end_index = r.end_index) = true →
    ((commitTx db ws).summary.any fun s => s.thread_id = r.thread_id ∧
      s.start_index = r.start_index ∧ s.end_index = r.end_index) = true := by
  induction ws with
  | nil => intro db r h; exact h
  | cons w ws ih =>
    intro db r h
    rw [commitTx, List.foldl_cons,
      show List.foldl applyWrite (applyWrite db w) ws = commitTx (applyWrite db w) ws from rfl]
    exact ih _ r (applyWrite_sum_mono db w r h)

/-- Inserting a summary row makes its triple present. -/
theorem applyWrite_sum_present (db : Store) (r : SumRow) :
    ((applyWrite db (.sumInsert r)).summary.any fun s => s.thread_id = r.thread_id ∧
      s.start_index = r.start_index ∧ s.end_index = r.end_index) = true := by
  simp only [applyWrite]
  split
  next h => exact h
  next h =>
    simp only [List.any_append, Bool.or_eq_true]
    right
    simp

/-- After committing the summary writes of a thread, every one of its
triples is present. -/
theorem commitTx_sum_all_present (entries : List Summary) (tid : String) :
    ∀ db : Store, ∀ s ∈ entries,
    ((commitTx db (entries.map (fun s2 =>
        TxWrite.sumInsert ⟨tid, s2.start_index, s2.end_index, s2.content⟩))).summary.any
      fun s0 => s0.thread_id = tid ∧
        s0.start_index = s.start_index ∧ s0.end_index = s.end_index) = true := by
  induction entries with
  | nil => intro db s hs; cases hs
  | cons e es ih =>
    intro db s hs
    rw [List.map_cons, commitTx, List.foldl_cons,
      show List.foldl applyWrite (applyWrite db _) _ = commitTx (applyWrite db
        (TxWrite.sumInsert ⟨tid, e.start_index, e.end_index, e.content⟩))
        (es.map (fun s2 => TxWrite.sumInsert ⟨tid, s2.start_index, s2.end_index, s2.content⟩))
        from rfl]
    rcases List.mem_cons.mp hs with rfl | hmem
    · exact commitTx_sum_mono _ _ ⟨tid, s.start_index, s.end_index, s.content⟩
        (applyWrite_sum_present db _)
    · exact ih _ s hmem

/-- A no-op write list commits to the same store. -/
theorem commitTx_noop (ws : List TxWrite) : ∀ db : Store,
    (∀ w ∈ ws, applyWrite db w = db) → commitTx db ws = db := by
  induction ws with
  | nil => intro db _; rfl
  | cons w ws ih =>
    intro db h
    rw [commitTx, List.foldl_cons, h w (List.mem_cons_self w ws),
      show List.foldl applyWrite db ws = commitTx db ws from rfl]
    exact ih db (fun w2 hw2 => h w2 (List.mem_cons_of_mem w hw2))

/-- The message table after a save: the old rows plus one row per newly
stored message. -/
theorem to_db_message (t : DbThread) (db : Store) :
    (to_db t db).message = db.message ++
      (messagesToStore t (savePreamble t db)).map
        (fun m => (⟨t.str_id, m.role.to_num, m.content, m.timestamp_epoch, m.token_count⟩ : MsgRow)) := by
  show (commitTx (savePreamble t db)
    (msgWrites t (savePreamble t db) ++ sumWrites t)).message = _
  rw [commitTx_message, savePreamble_message, List.filterMap_append]
  have h2 : List.filterMap (fun w => match w with
      | TxWrite.msgInsert r => some r
      | TxWrite.sumInsert _ => none) (sumWrites t) = [] := by
    simp [sumWrites, List.filterMap_map, Function.comp]
  have h1 : List.filterMap (fun w => match w with
      | TxWrite.msgInsert r => some r
      | TxWrite.sumInsert _ => none) (msgWrites t (savePreamble t db)) =
      (messagesToStore t (savePreamble t db)).map
        (fun m => (⟨t.str_id, m.role.to_num, m.content, m.timestamp_epoch, m.token_count⟩ : MsgRow)) := by
    simp only [msgWrites]
    induction messagesToStore t (savePreamble t db) with
    | nil => rfl
    | cons x xs ihh =>
      simp only [List.map_cons, List.filterMap_cons]
      rw [ihh]
  rw [h1, h2, List.append_nil]

/-- The timestamps selectable for the thread after a save: the old ones
plus those of the newly stored messages. -/
theorem save_timestamps (t : DbThread) (db : Store) :
    ((to_db t db).message.filter (fun r => r.thread_id = t.str_id)).map
        (fun r => r.timestamp) =
      ((db.message.filter (fun r => r.thread_id = t.str_id)).map (fun r => r.timestamp)) ++
        ((messagesToStore t (savePreamble t db)).map (fun m => m.timestamp_epoch)) := by
  rw [to_db_message, List.filter_append, List.map_append]
  have hkeep : List.filter (fun r => r.thread_id = t.str_id)
      ((messagesToStore t (savePreamble t db)).map
        (fun m => (⟨t.str_id, m.role.to_num, m.content, m.timestamp_epoch,
          m.token_count⟩ : MsgRow))) =
      (messagesToStore t (savePreamble t db)).map
        (fun m => (⟨t.str_id, m.role.to_num, m.content, m.timestamp_epoch,
          m.token_count⟩ : MsgRow)) := by
    rw [List.filter_eq_self]
    intro a ha
    rcases List.mem_map.mp ha with ⟨m, _, rfl⟩
    simp
  rw [hkeep, List.map_map]
  rfl

/-- The preamble never changes which timestamps are stored. -/
theorem maxTimestamp_preamble (t : DbThread) (db : Store) (id : String) :
    maxTimestamp (savePreamble t db) id = maxTimestamp db id := by
  unfold maxTimestamp
  rw [savePreamble_message]

/-- Saving twice stores nothing new: every in-memory message timestamp
is bounded by the stored maximum after the first save. -/
theorem second_save_no_new_messages (t : DbThread) (db : Store) :
    messagesToStore t (savePreamble t (to_db t db)) = [] := by
  unfold messagesToStore
  rw [maxTimestamp_preamble]
  cases h2 : maxTimestamp (to_db t db) t.str_id with
  | none =>
    have hl2 : ((to_db t db).message.filter (fun r => r.thread_id = t.str_id)).map
        (fun r => r.timestamp) = [] := maxQ_none h2
    rw [save_timestamps] at hl2
    rcases List.append_eq_nil.mp hl2 with ⟨hold, hnew⟩
    unfold messagesToStore at hnew
    rw [maxTimestamp_preamble] at hnew
    have h1 : maxTimestamp db t.str_id = none := by
      unfold maxTimestamp
      rw [hold]
      rfl
    rw [h1] at hnew
    exact List.map_eq_nil_iff.mp hnew
  | some M2 =>
    rw [List.filter_eq_nil_iff]
    intro m hm
    simp only [decide_eq_true_eq, not_lt]
    have key : m.timestamp_epoch ∈ ((to_db t db).message.filter
        (fun r => r.thread_id = t.str_id)).map (fun r => r.timestamp) ∨
        m.timestamp_epoch ≤ M2 := by
      rw [save_timestamps]
      cases h1 : maxTimestamp db t.str_id with
      | none =>
        left
        apply List.mem_append_right
        apply List.mem_map_of_mem
        unfold messagesToStore
        rw [maxTimestamp_preamble, h1]
        exact hm
      | some M1 =>
        by_cases hgt : M1 < m.timestamp_epoch
        · left
          apply List.mem_append_right
          apply List.mem_map_of_mem
          unfold messagesToStore
          rw [maxTimestamp_preamble, h1]
          exact List.mem_filter.mpr ⟨hm, by simpa using hgt⟩
        · right
          have hM1 : M1 ∈ (db.message.filter (fun r => r.thread_id = t.str_id)).map
              (fun r => r.timestamp) := maxQ_mem h1
          have hM1' : M1 ∈ ((to_db t db).message.filter
              (fun r => r.thread_id = t.str_id)).map (fun r => r.timestamp) := by
            rw [save_timestamps]
            exact List.mem_append_left _ hM1
          rcases maxQ_le_of_mem hM1' with ⟨mx, hmx, hle⟩
          have : mx = M2 := by
            have := h2
            unfold maxTimestamp at this
            rw [hmx] at this
            exact (Option.some.injEq _ _).mp this
          exact le_trans (not_lt.mp hgt) (this ▸ hle)
    rcases key with hmem | hle
    · rcases maxQ_le_of_mem hmem with ⟨mx, hmx, hle⟩
      have : mx = M2 := by
        have := h2
        unfold maxTimestamp at this
        rw [hmx] at this
        exact (Option.some.injEq _ _).mp this
      exact this ▸ hle
    · exact hle

/-- insertThreadRow leaves the title table unchanged. -/
theorem insertThreadRow_title (db : Store) (id model : String) :
    (insertThreadRow db id model).title = db.title := by
  unfold insertThreadRow; split <;> rfl

/-- insertTitleRow leaves the thread table unchanged. -/
theorem insertTitleRow_thread (db : Store) (id c : String) :
    (insertTitleRow db id c).thread = db.thread := by
  unfold insertTitleRow; split <;> rfl

/-- After insertThreadRow the id is present. -/
theorem insertThreadRow_present (db : Store) (id model : String) :
    ((insertThreadRow db id model).thread.any (fun p => p.1 = id)) = true := by
  unfold insertThreadRow
  split
  next h => exact h
  next h => simp

/-- insertThreadRow on a present id is a no-op. -/
theorem insertThreadRow_noop (db : Store) (id model : String)
    (h : (db.thread.any (fun p => p.1 = id)) = true) :
    insertThreadRow db id model = db := by
  unfold insertThreadRow
  rw [if_pos h]

/-- After insertTitleRow the id is present. -/
theorem insertTitleRow_present (db : Store) (id c : String) :
    ((insertTitleRow db id c).title.any (fun p => p.1 = id)) = true := by
  unfold insertTitleRow
  split
  next h => exact h
  next h => simp

/-- insertTitleRow on a present id is a no-op. -/
theorem insertTitleRow_noop (db : Store) (id c : String)
    (h : (db.title.any (fun p => p.1 = id)) = true) :
    insertTitleRow db id c = db := by
  unfold insertTitleRow
  rw [if_pos h]

/-- The preamble of a second save is a no-op. -/
theorem savePreamble_of_saved (t : DbThread) (db : Store) :
    savePreamble t (to_db t db) = to_db t db := by
  have hthread : ((to_db t db).thread.any (fun p => p.1 = t.str_id)) = true := by
    show ((commitTx (savePreamble t db) _).thread.any _) = true
    rw [commitTx_thread]
    unfold savePreamble
    cases ht : t.thread_title with
    | none => exact insertThreadRow_present db t.str_id t.model.label
    | some title =>
      rw [insertTitleRow_thread]
      exact insertThreadRow_present db t.str_id t.model.label
  unfold savePreamble
  rw [insertThreadRow_noop _ _ _ hthread]
  cases ht : t.thread_title with
  | none => rfl
  | some title =>
    have htitle : ((to_db t db).title.any (fun p => p.1 = t.str_id)) = true := by
      show ((commitTx (savePreamble t db) _).title.any _) = true
      rw [commitTx_title]
      unfold savePreamble
      rw [ht]
      exact insertTitleRow_present _ t.str_id title
    dsimp only
    rw [insertTitleRow_noop _ _ _ htitle]

/-- Every summary triple of the thread is present after a save. -/
theorem to_db_sum_present (t : DbThread) (db : Store) :
    ∀ s ∈ t.summary_entries,
      ((to_db t db).summary.any fun s0 => s0.thread_id = t.str_id ∧
        s0.start_index = s.start_index ∧ s0.end_index = s.end_index) = true := by
  intro s hs
  show ((commitTx (savePreamble t db)
    (msgWrites t (savePreamble t db) ++ sumWrites t)).summary.any _) = true
  rw [commitTx_append]
  exact commitTx_sum_all_present t.summary_entries t.str_id _ s hs

end Db

/-- C5: saving a thread twice equals saving it once — the second save
finds every in-memory message timestamp bounded by the stored maximum,
so its transaction contains no message inserts, the message table row
count is unchanged, summary upserts are ignored — and each save's
message and summary writes go through one transaction commit. -/
theorem c5_save_idempotent (t : Db.DbThread) (db : Db.Store) :
    Db.to_db t (Db.to_db t db) = Db.to_db t db ∧
    Db.msgWrites t (Db.savePreamble t (Db.to_db t db)) = [] ∧
    (Db.to_db t (Db.to_db t db)).message.length = (Db.to_db t db).message.length ∧
    Db.to_db t db = Db.commitTx (Db.savePreamble t db)
      (Db.msgWrites t (Db.savePreamble t db) ++ Db.sumWrites t) := by
  have hmsgs : Db.messagesToStore t (Db.savePreamble t (Db.to_db t db)) = [] :=
    Db.second_save_no_new_messages t db
  have hmw : Db.msgWrites t (Db.savePreamble t (Db.to_db t db)) = [] := by
    rw [Db.msgWrites, hmsgs]
    rfl
  have hpre := Db.savePreamble_of_saved t db
  have hmain : Db.to_db t (Db.to_db t db) = Db.to_db t db := by
    show Db.commitTx (Db.savePreamble t (Db.to_db t db))
      (Db.msgWrites t (Db.savePreamble t (Db.to_db t db)) ++ Db.sumWrites t) = _
    rw [hmw, hpre, List.nil_append]
    apply Db.commitTx_noop
    intro w hw
    rcases List.mem_map.mp hw with ⟨sE, hsE, rfl⟩
    simp only [Db.applyWrite]
    rw [if_pos (Db.to_db_sum_present t db sE hsE)]
  exact ⟨hmain, hmw, by rw [hmain], rfl⟩

/-- A prefix of an appended list that fits inside the left part is a
prefix of the left part. -/
theorem prefix_extract (p x y : List Char) (hp : p <+: x ++ y)
    (hl : p.length ≤ x.length) : p <+: x := by
  have h1 : p = List.take p.length (x ++ y) := List.prefix_iff_eq_take.mp hp
  have h2 : List.take p.length (x ++ y) = List.take p.length x := by
    rw [List.take_append_eq_append_take, Nat.sub_eq_zero_of_le hl, List.take_zero,
      List.append_nil]
  rw [h1, h2]
  exact List.take_prefix _ _

/-- A prefix of an appended list that covers the whole left part splits:
the left part is a prefix of it, and its remainder is a prefix of the
right part. -/
theorem prefix_split (p x y : List Char) (hp : p <+: x ++ y)
    (hl : x.length ≤ p.length) : x <+: p ∧ p.drop x.length <+: y := by
  obtain ⟨t, ht⟩ := hp
  constructor
  · have h1 : x = List.take x.length (p ++ t) := by rw [ht, List.take_left]
    have h2 : List.take x.length (p ++ t) = List.take x.length p := by
      rw [List.take_append_eq_append_take, Nat.sub_eq_zero_of_le hl, List.take_zero,
        List.append_nil]
    rw [h1, h2]
    exact List.take_prefix _ _
  · have h3 := congrArg (List.drop x.length) ht
    rw [List.drop_append_eq_append_drop, Nat.sub_eq_zero_of_le hl, List.drop_zero,
      List.drop_left] at h3
    exact ⟨t, h3⟩

/-- Reassemble a pattern around a split point: if the tail of the pattern
is a prefix of `t`, the whole pattern is a prefix of its head appended to
`t`. -/
theorem prefix_reassemble (pat : List Char) (s : Nat) (t : List Char)
    (h : pat.drop s <+: t) : pat <+: pat.take s ++ t := by
  obtain ⟨u, hu⟩ := h
  refine ⟨u, ?_⟩
  rw [← hu, ← List.append_assoc, List.take_append_drop]

/-- `hasSub` holds exactly when the pattern is a prefix at some position. -/
theorem hasSub_iff (pat L : List Char) :
    Msg.hasSub pat L = true ↔ ∃ j, pat.isPrefixOf (L.drop j) = true := by
  induction L with
  | nil =>
    constructor
    · intro h
      cases pat with
      | nil => exact ⟨0, rfl⟩
      | cons c t => simp [Msg.hasSub] at h
    · rintro ⟨j, hj⟩
      rw [List.drop_nil] at hj
      have := List.prefix_nil.mp ( List.isPrefixOf_iff_prefix.mp hj)
      subst this
      rfl
  | cons c L ih =>
    constructor
    · intro h
      have h' : (pat.isPrefixOf (c :: L) || Msg.hasSub pat L) = true := h
      rcases Bool.or_eq_true_iff.mp h' with h1 | h2
      · exact ⟨0, h1⟩
      · obtain ⟨j, hj⟩ := ih.mp h2
        exact ⟨j + 1, hj⟩
    · rintro ⟨j, hj⟩
      show (pat.isPrefixOf (c :: L) || Msg.hasSub pat L) = true
      cases j with
      | zero => exact Bool.or_eq_true_iff.mpr (.inl hj)
      | succ j => exact Bool.or_eq_true_iff.mpr (.inr (ih.mpr ⟨j, hj⟩))

/-- Extending a list on the left preserves `hasSub`. -/
theorem hasSub_append_left (pat x L : List Char) (h : Msg.hasSub pat L = true) :
    Msg.hasSub pat (x ++ L) = true := by
  induction x with
  | nil => exact h
  | cons c t ih =>
    show (pat.isPrefixOf (c :: (t ++ L)) || Msg.hasSub pat (t ++ L)) = true
    exact Bool.or_eq_true_iff.mpr (.inr ih)

/-- Extending a list on the right preserves `hasSub`. -/
theorem hasSub_append_right (pat L x : List Char) (h : Msg.hasSub pat L = true) :
    Msg.hasSub pat (L ++ x) = true := by
  rcases (hasSub_iff pat L).mp h with ⟨j, hj⟩
  apply (hasSub_iff pat (L ++ x)).mpr
  refine ⟨j, ?_⟩
  apply List.isPrefixOf_iff_prefix.mpr
  rw [List.drop_append_eq_append_drop]
  exact ( List.isPrefixOf_iff_prefix.mp hj).trans (List.prefix_append _ _)

/-- A pattern that occurs nowhere is counted zero times. -/
theorem countOcc_eq_zero (pat L : List Char) (h : Msg.hasSub pat L = false) :
    Msg.countOcc pat L = 0 := by
  induction L with
  | nil =>
    cases pat with
    | nil => simp [Msg.hasSub] at h
    | cons c t => rfl
  | cons c t ih =>
    show (if pat.isPrefixOf (c :: t) then 1 else 0) + Msg.countOcc pat t = 0
    have h' : (pat.isPrefixOf (c :: t) || Msg.hasSub pat t) = false := h
    rcases Bool.or_eq_false_iff.mp h' with ⟨h1, h2⟩
    simp [h1, ih h2]

/-- Appending a block with no pattern occurrence starting inside it does
not change the count. -/
theorem countOcc_append_nooc (pat : List Char) : ∀ (x z : List Char),
    (∀ j, j < x.length → pat.isPrefixOf (x.drop j ++ z) = false) →
    Msg.countOcc pat (x ++ z) = Msg.countOcc pat z := by
  intro x
  induction x with
  | nil => intro z _; rfl
  | cons c t ih =>
    intro z hno
    show (if pat.isPrefixOf (c :: (t ++ z)) then 1 else 0) + Msg.countOcc pat (t ++ z) = _
    have h0 := hno 0 (Nat.succ_pos _)
    rw [List.drop_zero] at h0
    rw [ih z (fun j hj => hno (j + 1) (Nat.succ_lt_succ hj))]
    rw [List.cons_append] at h0
    have h0' : ¬ pat <+: c :: (t ++ z) := by
      intro hc
      have hc' := List.isPrefixOf_iff_prefix.mpr hc
      rw [h0] at hc'
      exact Bool.noConfusion hc'
    simp [h0']

/-- Appending a block whose only pattern occurrence is at its start adds
exactly one to the count. -/
theorem countOcc_append_one (pat x z : List Char)
    (hx : pat.isPrefixOf (x ++ z) = true)
    (hin : ∀ j, 0 < j → j < x.length → pat.isPrefixOf (x.drop j ++ z) = false)
    (hne : x ≠ []) :
    Msg.countOcc pat (x ++ z) = 1 + Msg.countOcc pat z := by
  cases x with
  | nil => exact absurd rfl hne
  | cons c t =>
    show (if pat.isPrefixOf (c :: (t ++ z)) then 1 else 0) + Msg.countOcc pat (t ++ z) = _
    rw [countOcc_append_nooc pat t z
      (fun j hj => hin (j + 1) (Nat.succ_pos _) (Nat.succ_lt_succ hj))]
    simp only [ List.isPrefixOf_iff_prefix] at hx
    rw [List.cons_append] at hx
    simp [hx]

/-- The marker has length 17. -/
theorem marker_len : Msg.markerChars.length = 17 := by decide

/-- The marker is nonempty. -/
theorem marker_ne_nil : Msg.markerChars ≠ [] := by decide

/-- The only nontrivial borders of the marker are its backtick runs: a
dropped-prefix of the marker is a prefix of the marker only for drop
amounts 0, 14, 15 and 16. -/
theorem marker_periods : ∀ s, s < 17 →
    (Msg.markerChars.drop s).isPrefixOf Msg.markerChars = true →
    s = 0 ∨ s = 14 ∨ s = 15 ∨ s = 16 := by decide

/-- Gluing a long marker prefix to an opening fence reproduces the whole
marker followed by leftover backticks. -/
theorem marker_take_fence (q : Nat) (hq : q = 14 ∨ q = 15 ∨ q = 16) :
    ∃ u, Msg.markerChars.take q ++ Msg.markerChars.take 3 = Msg.markerChars ++ u := by
  rcases hq with rfl | rfl | rfl
  · exact ⟨[], by decide⟩
  · exact ⟨Msg.markerChars.take 1, by decide⟩
  · exact ⟨Msg.markerChars.take 2, by decide⟩

/-- Inversion of `findClose`: a successful close-fence search splits the
body into the content, the newline, the closing fence, and the rest. -/
theorem findClose_decomp : ∀ (body content after : List Char),
    Msg.findClose body = some (content, after) →
    body = content ++ '\n' :: (Msg.markerChars.take 3 ++ after) := by
  intro body
  induction body with
  | nil => intro content after h; exact Option.noConfusion h
  | cons c ct ih =>
    intro content after h
    simp only [Msg.findClose] at h
    split at h
    next hc =>
      simp only [Option.some.injEq, Prod.mk.injEq] at h
      obtain ⟨h1, h2⟩ := h
      subst h1
      subst h2
      obtain ⟨hcn, hcp⟩ := hc
      subst hcn
      have hct : ct = ['`', '`', '`'] ++ ct.drop 3 := by
        have he : (['`', '`', '`'] : List Char) = List.take 3 ct :=
          List.prefix_iff_eq_take.mp ( List.isPrefixOf_iff_prefix.mp hcp)
        conv_lhs => rw [← List.take_append_drop 3 ct]
        rw [← he]
      rw [show Msg.markerChars.take 3 = ['`', '`', '`'] from by decide]
      rw [List.nil_append, ← hct]
    next hc =>
      split at h
      next pre rest heq =>
        simp only [Option.some.injEq, Prod.mk.injEq] at h
        obtain ⟨h1, h2⟩ := h
        subst h1
        subst h2
        rw [List.cons_append, ← ih pre rest heq]
      next => exact Option.noConfusion h

/-- Inversion of `matchAt`: a successful match at the head splits the
text into an opening fence, a header, a newline, the content, a newline,
a closing fence, and the rest. -/
theorem matchAt_decomp (cs : List Char) (h0 : Option (List Char)) (content after : List Char)
    (h : Msg.matchAt cs = some (h0, content, after)) :
    ∃ hdr, cs = Msg.markerChars.take 3 ++
      (hdr ++ '\n' :: (content ++ '\n' :: (Msg.markerChars.take 3 ++ after))) := by
  rw [Msg.matchAt.eq_def] at h
  split at h
  next rest =>
    dsimp only at h
    split at h
    next body heq =>
      split at h
      next co af heq2 =>
        simp only [Option.some.injEq, Prod.mk.injEq] at h
        obtain ⟨h1, h2, h3⟩ := h
        subst h2
        subst h3
        obtain ⟨u, hu⟩ := @List.takeWhile_prefix Char rest Msg.isWordChar
        have hu2 : List.drop (List.takeWhile Msg.isWordChar rest).length rest = u := by
          have hd := List.drop_left (List.takeWhile Msg.isWordChar rest) u
          rw [hu] at hd
          exact hd
        rw [hu2] at heq
        subst heq
        have hb := findClose_decomp body co af heq2
        rw [show Msg.markerChars.take 3 = ['`', '`', '`'] from by decide] at hb
        refine ⟨List.takeWhile Msg.isWordChar rest, ?_⟩
        rw [show Msg.markerChars.take 3 = ['`', '`', '`'] from by decide]
        conv_lhs => rw [← hu, hb]
        rfl
      next heq2 => exact Option.noConfusion h
    next => exact Option.noConfusion h
  next => exact Option.noConfusion h

/-- Inversion of `findMatch`: a leftmost regex match splits the text into
the pre-match text, an opening fence, a header, a newline, the content, a
newline, a closing fence, and the rest. -/
theorem findMatch_decomp : ∀ (cs pre : List Char) (h0 : Option (List Char))
    (content rest : List Char),
    Msg.findMatch cs = some (pre, h0, content, rest) →
    ∃ hdr, cs = pre ++ (Msg.markerChars.take 3 ++
      (hdr ++ '\n' :: (content ++ '\n' :: (Msg.markerChars.take 3 ++ rest)))) := by
  intro cs
  induction cs with
  | nil => intro pre h0 content rest h; exact Option.noConfusion h
  | cons c ct ih =>
    intro pre h0 content rest h
    simp only [Msg.findMatch] at h
    cases hma : Msg.matchAt (c :: ct) with
    | some trip =>
      obtain ⟨hh, co, af⟩ := trip
      rw [hma] at h
      simp only [Option.some.injEq, Prod.mk.injEq] at h
      obtain ⟨h1, h2, h3, h4⟩ := h
      subst h1
      subst h2
      subst h3
      subst h4
      obtain ⟨hdr, hcs⟩ := matchAt_decomp (c :: ct) hh co af hma
      exact ⟨hdr, hcs⟩
    | none =>
      rw [hma] at h
      cases hfm : Msg.findMatch ct with
      | none =>
        rw [hfm] at h
        exact Option.noConfusion h
      | some quad =>
        obtain ⟨p, hh, co, rs⟩ := quad
        rw [hfm] at h
        simp only [Option.some.injEq, Prod.mk.injEq] at h
        obtain ⟨h1, h2, h3, h4⟩ := h
        subst h1
        subst h2
        subst h3
        subst h4
        obtain ⟨hdr, hct⟩ := ih p hh co rs hfm
        refine ⟨hdr, ?_⟩
        rw [List.cons_append, ← hct]

/-- A marker suffix that begins before a spliced-in marker forces a full
marker occurrence at the matching position of the pre-splice text. -/
theorem marker_straddle (s : Nat) (hs1 : 1 ≤ s) (hs16 : s ≤ 16)
    (pre w out' : List Char)
    (hD : Msg.markerChars.drop s <+: pre ++ (Msg.markerChars ++ out')) :
    Msg.markerChars <+:
      Msg.markerChars.take s ++ (pre ++ (Msg.markerChars.take 3 ++ w)) := by
  by_cases hc : Msg.markerChars.length - s ≤ pre.length
  · have h1 : Msg.markerChars.drop s <+: pre :=
      prefix_extract _ _ _ hD (by rw [List.length_drop]; exact hc)
    obtain ⟨u, hu⟩ := h1
    have heq : Msg.markerChars.take s ++ (pre ++ (Msg.markerChars.take 3 ++ w)) =
        Msg.markerChars ++ (u ++ (Msg.markerChars.take 3 ++ w)) := by
      conv_lhs => rw [← hu]
      simp only [List.append_assoc]
      rw [← List.append_assoc, List.take_append_drop]
    rw [heq]
    exact List.prefix_append _ _
  · push_neg at hc
    have hsplit := prefix_split (Msg.markerChars.drop s) pre (Msg.markerChars ++ out') hD
      (by rw [List.length_drop]; omega)
    obtain ⟨hp1, hp2⟩ := hsplit
    rw [List.drop_drop] at hp2
    have hlen17 := marker_len
    have hs'17 : s + pre.length < 17 := by omega
    have hMs' : Msg.markerChars.drop (s + pre.length) <+: Msg.markerChars :=
      prefix_extract _ _ _ hp2 (by rw [List.length_drop]; omega)
    have hper := marker_periods (s + pre.length) hs'17
      ( List.isPrefixOf_iff_prefix.mpr hMs')
    have hq : s + pre.length = 14 ∨ s + pre.length = 15 ∨ s + pre.length = 16 := by
      rcases hper with h | h | h | h
      · omega
      · exact .inl h
      · exact .inr (.inl h)
      · exact .inr (.inr h)
    have hpre_eq : pre = (Msg.markerChars.drop s).take pre.length :=
      List.prefix_iff_eq_take.mp hp1
    obtain ⟨u, hu⟩ := marker_take_fence (s + pre.length) hq
    have heq : Msg.markerChars.take s ++
        ((Msg.markerChars.drop s).take pre.length ++ (Msg.markerChars.take 3 ++ w)) =
        Msg.markerChars ++ (u ++ w) := by
      calc Msg.markerChars.take s ++
          ((Msg.markerChars.drop s).take pre.length ++ (Msg.markerChars.take 3 ++ w))
          = (Msg.markerChars.take s ++ (Msg.markerChars.drop s).take pre.length) ++
            (Msg.markerChars.take 3 ++ w) := (List.append_assoc _ _ _).symm
        _ = Msg.markerChars.take (s + pre.length) ++ (Msg.markerChars.take 3 ++ w) := by
            rw [← List.take_add]
        _ = (Msg.markerChars.take (s + pre.length) ++ Msg.markerChars.take 3) ++ w :=
            (List.append_assoc _ _ _).symm
        _ = (Msg.markerChars ++ u) ++ w := by rw [hu]
        _ = Msg.markerChars ++ (u ++ w) := List.append_assoc _ _ _
    rw [hpre_eq, heq]
    exact List.prefix_append _ _

/-- Text with no marker occurrence even when preceded by an opening fence
satisfies the tail condition. -/
theorem goodTail_of_noSub (t : List Char)
    (h : Msg.hasSub Msg.markerChars (Msg.markerChars.take 3 ++ t) = false) :
    Msg.GoodTail t := by
  refine ⟨?_, ?_, ?_⟩
  · intro hD
    have hre := prefix_reassemble Msg.markerChars 1 t hD
    have hdrop : (Msg.markerChars.take 3 ++ t).drop 2 = Msg.markerChars.take 1 ++ t := by
      rw [List.drop_append_eq_append_drop,
        show (Msg.markerChars.take 3).drop 2 = Msg.markerChars.take 1 from by decide,
        show 2 - (Msg.markerChars.take 3).length = 0 from by decide, List.drop_zero]
    have hT : Msg.hasSub Msg.markerChars (Msg.markerChars.take 3 ++ t) = true :=
      (hasSub_iff _ _).mpr ⟨2, by rw [hdrop]; exact List.isPrefixOf_iff_prefix.mpr hre⟩
    rw [h] at hT
    exact Bool.noConfusion hT
  · intro hD
    have hre := prefix_reassemble Msg.markerChars 2 t hD
    have hdrop : (Msg.markerChars.take 3 ++ t).drop 1 = Msg.markerChars.take 2 ++ t := by
      rw [List.drop_append_eq_append_drop,
        show (Msg.markerChars.take 3).drop 1 = Msg.markerChars.take 2 from by decide,
        show 1 - (Msg.markerChars.take 3).length = 0 from by decide, List.drop_zero]
    have hT : Msg.hasSub Msg.markerChars (Msg.markerChars.take 3 ++ t) = true :=
      (hasSub_iff _ _).mpr ⟨1, by rw [hdrop]; exact List.isPrefixOf_iff_prefix.mpr hre⟩
    rw [h] at hT
    exact Bool.noConfusion hT
  · intro hD
    have hre := prefix_reassemble Msg.markerChars 3 t hD
    have hT : Msg.hasSub Msg.markerChars (Msg.markerChars.take 3 ++ t) = true :=
      (hasSub_iff _ _).mpr ⟨0, by
        rw [List.drop_zero]; exact List.isPrefixOf_iff_prefix.mpr hre⟩
    rw [h] at hT
    exact Bool.noConfusion hT

/-- The spliced output of one replacement step satisfies the tail
condition when the fence-extended input has no marker occurrence. -/
theorem goodTail_spliced (pre w out' : List Char)
    (hFt : Msg.hasSub Msg.markerChars
      (Msg.markerChars.take 3 ++ (pre ++ (Msg.markerChars.take 3 ++ w))) = false) :
    Msg.GoodTail (pre ++ (Msg.markerChars ++ out')) := by
  refine ⟨?_, ?_, ?_⟩
  · intro hD
    have hocc := marker_straddle 1 (by norm_num) (by norm_num) pre w out' hD
    have hdrop : (Msg.markerChars.take 3 ++ (pre ++ (Msg.markerChars.take 3 ++ w))).drop 2 =
        Msg.markerChars.take 1 ++ (pre ++ (Msg.markerChars.take 3 ++ w)) := by
      rw [List.drop_append_eq_append_drop,
        show (Msg.markerChars.take 3).drop 2 = Msg.markerChars.take 1 from by decide,
        show 2 - (Msg.markerChars.take 3).length = 0 from by decide, List.drop_zero]
    have hT : Msg.hasSub Msg.markerChars
        (Msg.markerChars.take 3 ++ (pre ++ (Msg.markerChars.take 3 ++ w))) = true :=
      (hasSub_iff _ _).mpr ⟨2, by rw [hdrop]; exact List.isPrefixOf_iff_prefix.mpr hocc⟩
    rw [hFt] at hT
    exact Bool.noConfusion hT
  · intro hD
    have hocc := marker_straddle 2 (by norm_num) (by norm_num) pre w out' hD
    have hdrop : (Msg.markerChars.take 3 ++ (pre ++ (Msg.markerChars.take 3 ++ w))).drop 1 =
        Msg.markerChars.take 2 ++ (pre ++ (Msg.markerChars.take 3 ++ w)) := by
      rw [List.drop_append_eq_append_drop,
        show (Msg.markerChars.take 3).drop 1 = Msg.markerChars.take 2 from by decide,
        show 1 - (Msg.markerChars.take 3).length = 0 from by decide, List.drop_zero]
    have hT : Msg.hasSub Msg.markerChars
        (Msg.markerChars.take 3 ++ (pre ++ (Msg.markerChars.take 3 ++ w))) = true :=
      (hasSub_iff _ _).mpr ⟨1, by rw [hdrop]; exact List.isPrefixOf_iff_prefix.mpr hocc⟩
    rw [hFt] at hT
    exact Bool.noConfusion hT
  · intro hD
    have hocc := marker_straddle 3 (by norm_num) (by norm_num) pre w out' hD
    have hT : Msg.hasSub Msg.markerChars
        (Msg.markerChars.take 3 ++ (pre ++ (Msg.markerChars.take 3 ++ w))) = true :=
      (hasSub_iff _ _).mpr ⟨0, by
        rw [List.drop_zero]; exact List.isPrefixOf_iff_prefix.mpr hocc⟩
    rw [hFt] at hT
    exact Bool.noConfusion hT

/-- One replacement step adds exactly one marker occurrence: the splice
point, with no occurrence starting inside the pre-match text and none
straddling into the recursive output. -/
theorem countOcc_spliced (pre w out' : List Char)
    (hSub : Msg.hasSub Msg.markerChars
      (pre ++ (Msg.markerChars.take 3 ++ w)) = false)
    (hgt : Msg.GoodTail out') :
    Msg.countOcc Msg.markerChars (pre ++ (Msg.markerChars ++ out'))
      = 1 + Msg.countOcc Msg.markerChars out' := by
  have hlen17 := marker_len
  have hpeel : ∀ j, j < pre.length →
      Msg.markerChars.isPrefixOf (pre.drop j ++ (Msg.markerChars ++ out')) = false := by
    intro j hj
    by_contra hcon
    have hocc : Msg.markerChars <+: pre.drop j ++ (Msg.markerChars ++ out') :=
      List.isPrefixOf_iff_prefix.mp (eq_true_of_ne_false hcon)
    have hocc2 : Msg.markerChars <+: pre.drop j ++ (Msg.markerChars.take 3 ++ w) := by
      by_cases hlong : Msg.markerChars.length ≤ (pre.drop j).length
      · have h1 : Msg.markerChars <+: pre.drop j := prefix_extract _ _ _ hocc hlong
        exact h1.trans (List.prefix_append _ _)
      · push_neg at hlong
        obtain ⟨hq1, hq2⟩ := prefix_split _ _ _ hocc (le_of_lt hlong)
        have hq3 : Msg.markerChars.drop (pre.drop j).length <+: Msg.markerChars :=
          prefix_extract _ _ _ hq2 (by rw [List.length_drop]; exact Nat.sub_le _ _)
        have hlj : (pre.drop j).length = pre.length - j := List.length_drop _ _
        have hq17 : (pre.drop j).length < 17 := by omega
        have hper := marker_periods (pre.drop j).length hq17
          ( List.isPrefixOf_iff_prefix.mpr hq3)
        have hq : (pre.drop j).length = 14 ∨ (pre.drop j).length = 15 ∨
            (pre.drop j).length = 16 := by
          rcases hper with h | h | h | h
          · omega
          · exact .inl h
          · exact .inr (.inl h)
          · exact .inr (.inr h)
        have hpre_eq : pre.drop j = Msg.markerChars.take (pre.drop j).length :=
          List.prefix_iff_eq_take.mp hq1
        obtain ⟨u, hu⟩ := marker_take_fence (pre.drop j).length hq
        have heq : pre.drop j ++ (Msg.markerChars.take 3 ++ w) =
            Msg.markerChars ++ (u ++ w) := by
          calc pre.drop j ++ (Msg.markerChars.take 3 ++ w)
              = (pre.drop j ++ Msg.markerChars.take 3) ++ w :=
                (List.append_assoc _ _ _).symm
            _ = (Msg.markerChars.take (pre.drop j).length ++ Msg.markerChars.take 3)
                ++ w := by conv_lhs => rw [hpre_eq]
            _ = (Msg.markerChars ++ u) ++ w := by rw [hu]
            _ = Msg.markerChars ++ (u ++ w) := List.append_assoc _ _ _
        rw [heq]
        exact List.prefix_append _ _
    have hd : (pre ++ (Msg.markerChars.take 3 ++ w)).drop j =
        pre.drop j ++ (Msg.markerChars.take 3 ++ w) := by
      rw [List.drop_append_eq_append_drop, Nat.sub_eq_zero_of_le (le_of_lt hj),
        List.drop_zero]
    have hT : Msg.hasSub Msg.markerChars (pre ++ (Msg.markerChars.take 3 ++ w)) = true :=
      (hasSub_iff _ _).mpr ⟨j, by rw [hd]; exact List.isPrefixOf_iff_prefix.mpr hocc2⟩
    rw [hSub] at hT
    exact Bool.noConfusion hT
  rw [countOcc_append_nooc Msg.markerChars pre (Msg.markerChars ++ out') hpeel]
  apply countOcc_append_one
  · exact List.isPrefixOf_iff_prefix.mpr (List.prefix_append _ _)
  · intro j hj0 hj17
    by_contra hcon
    have hocc : Msg.markerChars <+: Msg.markerChars.drop j ++ out' :=
      List.isPrefixOf_iff_prefix.mp (eq_true_of_ne_false hcon)
    obtain ⟨hr1, hr2⟩ := prefix_split _ _ _ hocc (by rw [List.length_drop]; omega)
    have hper := marker_periods j (by omega)
      ( List.isPrefixOf_iff_prefix.mpr hr1)
    have hq : j = 14 ∨ j = 15 ∨ j = 16 := by
      rcases hper with h | h | h | h
      · omega
      · exact .inl h
      · exact .inr (.inl h)
      · exact .inr (.inr h)
    rw [List.length_drop, hlen17] at hr2
    rcases hq with rfl | rfl | rfl
    · norm_num at hr2
      exact hgt.2.2 hr2
    · norm_num at hr2
      exact hgt.2.1 hr2
    · norm_num at hr2
      exact hgt.1 hr2
  · exact marker_ne_nil

/-- Joint invariant of the `replace_all` loop: on marker-free input the
output contains exactly one marker occurrence per recorded block, and on
fence-extended marker-free input the output satisfies the tail
condition. -/
theorem replaceLoop_invariant : ∀ (fuel : Nat) (t : List Char)
    (blocks : List Msg.CodeBlock) (out : List Char),
    Msg.replaceLoop fuel t = (blocks, out) →
    (Msg.hasSub Msg.markerChars t = false →
      Msg.countOcc Msg.markerChars out = blocks.length) ∧
    (Msg.hasSub Msg.markerChars (Msg.markerChars.take 3 ++ t) = false →
      Msg.GoodTail out) := by
  intro fuel
  induction fuel with
  | zero =>
    intro t blocks out h
    have h' : (([] : List Msg.CodeBlock), t) = (blocks, out) := h
    rw [Prod.mk.injEq] at h'
    obtain ⟨hb, ho⟩ := h'
    subst hb
    subst ho
    exact ⟨fun hs => countOcc_eq_zero _ _ hs, fun hs => goodTail_of_noSub t hs⟩
  | succ fuel ih =>
    intro t blocks out h
    cases hm : Msg.findMatch t with
    | none =>
      simp only [Msg.replaceLoop, hm] at h
      rw [Prod.mk.injEq] at h
      obtain ⟨hb, ho⟩ := h
      subst hb
      subst ho
      exact ⟨fun hs => countOcc_eq_zero _ _ hs, fun hs => goodTail_of_noSub t hs⟩
    | some quad =>
      obtain ⟨pre, hh, content, rest⟩ := quad
      rcases hrl : Msg.replaceLoop fuel rest with ⟨blocks', out'⟩
      simp only [Msg.replaceLoop, hm, hrl] at h
      rw [Prod.mk.injEq] at h
      obtain ⟨hb, ho⟩ := h
      subst hb
      subst ho
      obtain ⟨hdr, ht⟩ := findMatch_decomp t pre hh content rest hm
      subst ht
      constructor
      · intro hSub
        have hFrest : Msg.hasSub Msg.markerChars
            (Msg.markerChars.take 3 ++ rest) = false := by
          cases hbv : Msg.hasSub Msg.markerChars (Msg.markerChars.take 3 ++ rest) with
          | false => rfl
          | true =>
            exfalso
            have a1 := hasSub_append_left Msg.markerChars ['\n'] _ hbv
            have a2 := hasSub_append_left Msg.markerChars content _ a1
            have a3 := hasSub_append_left Msg.markerChars ['\n'] _ a2
            have a4 := hasSub_append_left Msg.markerChars hdr _ a3
            have a5 := hasSub_append_left Msg.markerChars (Msg.markerChars.take 3) _ a4
            have a6 := hasSub_append_left Msg.markerChars pre _ a5
            simp only [List.singleton_append] at a6
            rw [hSub] at a6
            exact Bool.noConfusion a6
        have hrest : Msg.hasSub Msg.markerChars rest = false := by
          cases hbv : Msg.hasSub Msg.markerChars rest with
          | false => rfl
          | true =>
            exfalso
            have a1 := hasSub_append_left Msg.markerChars (Msg.markerChars.take 3) _ hbv
            rw [hFrest] at a1
            exact Bool.noConfusion a1
        have ihc := (ih rest blocks' out' hrl).1 hrest
        have ihg := (ih rest blocks' out' hrl).2 hFrest
        rw [List.append_assoc]
        rw [countOcc_spliced pre _ out' hSub ihg, ihc, List.length_cons]
        omega
      · intro hFt
        rw [List.append_assoc]
        exact goodTail_spliced pre _ out' hFt

/-- On marker-free input, extraction leaves one marker occurrence in the
non-code content per extracted block. -/
theorem extractBlocks_count (s : String)
    (h : Msg.hasSub Msg.markerChars s.toList = false) :
    Msg.countOcc Msg.markerChars (Msg.extractBlocks s).2.toList
      = (Msg.extractBlocks s).1.length := by
  rcases hrl : Msg.replaceLoop s.toList.length s.toList with ⟨bs, out⟩
  have hc := (replaceLoop_invariant s.toList.length s.toList bs out hrl).1 h
  simp only [Msg.extractBlocks, hrl]
  exact hc

/-- C4: the derived block fields of a message are a pure function of its
raw content — every public constructor and `update` factors through the
same extraction, re-deriving is idempotent — and, when the marker
sentinel does not occur in the raw content, the marker count in the
non-code content equals the code-block list length. -/
theorem c4_block_derivation_pure (m : Msg.Message) (role : Msg.Role)
    (content text : String) (ts : Int) (epoch : ℚ) (tokens : Option Nat) :
    Msg.Message.update_blocks (Msg.Message.update_blocks m) = Msg.Message.update_blocks m ∧
    (Msg.Message.new role content ts).code_blocks = (Msg.extractBlocks content).1 ∧
    (Msg.Message.new role content ts).non_code_content = (Msg.extractBlocks content).2 ∧
    (Msg.Message.new_user content ts).code_blocks = (Msg.extractBlocks content).1 ∧
    (Msg.Message.new_asst content ts).code_blocks = (Msg.extractBlocks content).1 ∧
    (Msg.Message.new_from_db role content epoch tokens).code_blocks
      = (Msg.extractBlocks content).1 ∧
    (Msg.Message.update m text).code_blocks
      = (Msg.extractBlocks (m.content ++ text)).1 ∧
    (Msg.hasSub Msg.markerChars m.content.toList = false →
      Msg.countOcc Msg.markerChars
          (Msg.Message.update_blocks m).non_code_content.toList
        = (Msg.Message.update_blocks m).code_blocks.length) := by
  have hub : ∀ mm : Msg.Message,
      (Msg.Message.update_blocks mm).code_blocks = (Msg.extractBlocks mm.content).1 ∧
      (Msg.Message.update_blocks mm).non_code_content = (Msg.extractBlocks mm.content).2 ∧
      (Msg.Message.update_blocks mm).content = mm.content := by
    intro mm
    rcases hp : Msg.extractBlocks mm.content with ⟨bs, nc⟩
    simp [Msg.Message.update_blocks, hp]
  have hnewcb : ∀ (r : Msg.Role) (c : String) (tsv : Int),
      (Msg.Message.new r c tsv).code_blocks = (Msg.extractBlocks c).1 :=
    fun r c tsv => (hub ⟨r, c, tsv, none, [], ""⟩).1
  refine ⟨?_, hnewcb role content ts, ?_, hnewcb .user content ts,
    hnewcb .assistant content ts, ?_, ?_, ?_⟩
  · obtain ⟨r, c, tms, tk, cb, ncc⟩ := m
    rcases hp : Msg.extractBlocks c with ⟨bs, nc⟩
    simp [Msg.Message.update_blocks, hp]
  · exact (hub ⟨role, content, ts, none, [], ""⟩).2.1
  · exact hnewcb role content _
  · exact (hub { m with content := m.content ++ text }).1
  · intro h
    rw [(hub m).2.1, (hub m).1]
    exact extractBlocks_count m.content h

/-- Witness for C4 at a concrete message holding one fenced code block. -/
theorem c4_block_derivation_pure_witness :
    Msg.hasSub Msg.markerChars (String.toList "x ```rs\nlet a = 1;\n``` y") = false ∧
    Msg.countOcc Msg.markerChars
        (Msg.Message.update_blocks
          ⟨Msg.Role.user, "x ```rs\nlet a = 1;\n``` y", 0, none, [], ""⟩).non_code_content.toList
      = (Msg.Message.update_blocks
          ⟨Msg.Role.user, "x ```rs\nlet a = 1;\n``` y", 0, none, [], ""⟩).code_blocks.length :=
  ⟨by decide,
    (c4_block_derivation_pure ⟨Msg.Role.user, "x ```rs\nlet a = 1;\n``` y", 0, none, [], ""⟩
      .user "" "" 0 0 none).2.2.2.2.2.2.2 (by decide)⟩
